import Mathlib

/-!
Shallow embedding of the ImageProcLib image filtering engine
(`src/img_ops.c`, `src/imageproc_A.c`) and proofs about it.

Conventions of the embedding:
* byte buffers are total functions `ℕ → ℕ` from flat indices to byte values;
* C `float` arithmetic is modelled by exact rational arithmetic (`ℚ`);
  the transcendental library calls `expf` and `sqrtf` are abstract
  function parameters of the model;
* C `for` loops become the ascending iteration combinator `iterN`;
* a C function that fills a freshly `malloc`ed (uninitialised) buffer is
  modelled as taking the initial contents of that buffer as a parameter.
-/

namespace ImageProcLib

/-- A flat byte buffer: index to stored value. -/
abbrev Buf := ℕ → ℕ

/-- A single array store `b[i] = v`. -/
def bufSet (b : Buf) (i v : ℕ) : Buf := fun k => if k = i then v else b k

/-- `iterN f n a` runs the loop body `f` on counter values `0, 1, …, n-1`,
starting from state `a` (the shape of every `for (k = 0; k < n; k++)`). -/
def iterN {α : Type} (f : ℕ → α → α) : ℕ → α → α
  | 0, a => a
  | n + 1, a => f n (iterN f n a)

/-- Integer clamping, as in `clamp` of `imageproc_A.c` and the inline
border handling of `img_ops.c`. -/
def iclamp (v lo hi : ℤ) : ℤ := if v < lo then lo else if v > hi then hi else v

/-- `to_uchar` of `img_ops.c`: clamp a float to `[0, 255]`, then round to
nearest (half away from zero; the clamped value is nonnegative, so this is
`⌊v + 1/2⌋`). -/
def to_uchar (value : ℚ) : ℕ :=
  if value < 0 then 0
  else if value > 255 then 255
  else (Int.floor (value + 1/2)).toNat

/-- The spec-side phrasing `round(clamp(v, 0, 255))`. -/
def roundClamp (q : ℚ) : ℕ := (Int.floor (min (max q 0) 255 + 1/2)).toNat

/-!  ### Gaussian kernel builder (`img_ops.c`)  -/

/-- The `Kernel` struct of `img_ops.c`: a radius and the coefficient array. -/
structure Kernel where
  radius : ℕ
  values : ℕ → ℚ

/-- One unnormalised Gaussian coefficient `expf(-(i*i) / (2*sigma*sigma))`,
with the C library `expf` left abstract. -/
def gaussRaw (expf : ℚ → ℚ) (sigma : ℚ) (i : ℤ) : ℚ :=
  expf (-((i * i : ℤ) : ℚ) / (2 * sigma * sigma))

/-- `generate_gaussian_kernel` of `img_ops.c`: radius `⌈3·sigma⌉`, one loop
filling the raw coefficients for offsets `-radius..radius` (index `i+radius`)
while accumulating their sum, then a loop dividing every entry by the sum. -/
def generate_gaussian_kernel (expf : ℚ → ℚ) (sigma : ℚ) : Kernel :=
  let radius : ℕ := (Int.ceil (3 * sigma)).toNat
  let size := 2 * radius + 1
  let sum : ℚ :=
    iterN (fun k s => s + gaussRaw expf sigma ((k : ℤ) - (radius : ℤ))) size 0
  ⟨radius, fun k => gaussRaw expf sigma ((k : ℤ) - (radius : ℤ)) / sum⟩

/-!  ### Median filter: histogram engine (`imageproc_A.c`)  -/

/-- A 256-bin frequency histogram with C `int` counts. -/
abbrev Hist := ℕ → ℤ

/-- `hist[v]++`. -/
def histIncr (h : Hist) (v : ℕ) : Hist := fun u => if u = v then h u + 1 else h u

/-- `hist[v]--`. -/
def histDecr (h : Hist) (v : ℕ) : Hist := fun u => if u = v then h u - 1 else h u

/-- `hist_set` of `imageproc_A.c`: zero all 256 bins, then count every pixel
of the `window × window` box of `padded` anchored at row `y`, column `x`
(channel `c` of a `channels`-interleaved row of byte width `ldp`).
Returns the histogram together with the stored positions `(*hy, *hx)`. -/
def hist_set (padded : Buf) (y ldp x channels c window : ℕ) : Hist × ℕ × ℕ :=
  (iterN (fun iw h =>
      iterN (fun jw h =>
          histIncr h (padded ((y + iw) * ldp + (x + jw) * channels + c)))
        window h)
    window (fun _ => 0), y, x)

/-- `hist_move` of `imageproc_A.c`: remove the leaving column `*hx`,
advance `*hx`, add the entering column `*hx + win_s - 1`. -/
def hist_move (padded : Buf) (y ldp channels c win_s : ℕ) (h : Hist) (hx : ℕ) :
    Hist × ℕ :=
  let h1 := iterN (fun iw h =>
      histDecr h (padded ((y + iw) * ldp + hx * channels + c))) win_s h
  let hx1 := hx + 1
  let h2 := iterN (fun iw h =>
      histIncr h (padded ((y + iw) * ldp + (hx1 + win_s - 1) * channels + c))) win_s h1
  (h2, hx1)

/-- The scan loop of `get_median`: starting at bin `i` with accumulator
`cnt`, return the first bin whose running count exceeds `half`; after the
256 iterations are exhausted return 255. -/
def medianScan (h : Hist) (half : ℤ) : ℕ → ℕ → ℤ → ℕ
  | 0, _, _ => 255
  | fuel + 1, i, cnt =>
    if cnt + h i > half then i else medianScan h half fuel (i + 1) (cnt + h i)

/-- `get_median` of `imageproc_A.c`. -/
def get_median (h : Hist) (win_sqr : ℕ) : ℕ :=
  medianScan h ((win_sqr : ℤ) / 2) 256 0 0

/-- Cumulative count of bins `0, …, m-1`. -/
def presumH (h : Hist) (m : ℕ) : ℤ := ∑ v ∈ Finset.range m, h v

/-!  ### The `Image` data model (`imageproc.h`)  -/

/-- The `ImageFormat` enum of `imageproc.h`. -/
inductive ImageFormat
  | PNG
  | JPEG
  | UNKNOWN
deriving DecidableEq

/-- The `ImageProcStatus` enum of `imageproc.h`. -/
inductive ImageProcStatus
  | SUCCESS
  | INVALID_ARGUMENT
  | FILE_NOT_FOUND
  | FILE_ACCESS_DENIED
  | FILE_READ
  | FILE_WRITE
  | UNSUPPORTED_FORMAT
  | OUT_OF_MEMORY
  | INTERNAL
deriving DecidableEq

/-- The `Image` struct of `imageproc.h`.  The `ImageColorChannels` enum is
modelled by its numeric value (`GRAYSCALE = 1`, `RGB = 3`, `RGBA = 4`). -/
structure Image where
  format : ImageFormat
  width : ℕ
  height : ℕ
  channels : ℕ
  data : Buf

/-!  ### Channel reducer and grayscale entry point  -/

/-- `convert_to_one_channel` of `img_ops.c`: `memcpy` for one channel, the
per-pixel luma formula `0.299·R + 0.587·G + 0.114·B` through `to_uchar` for
3 or 4 channels (alpha ignored), and no writes for any other channel count. -/
def convert_to_one_channel (input out : Buf) (width height : ℕ)
    (channels_in : ℕ) : Buf :=
  if channels_in = 1 then
    fun idx => if idx < height * width then input idx else out idx
  else if channels_in = 3 ∨ channels_in = 4 then
    iterN (fun i o => bufSet o i (to_uchar
        ((299 / 1000 : ℚ) * (input (i * channels_in) : ℚ)
          + (587 / 1000) * (input (i * channels_in + 1) : ℚ)
          + (114 / 1000) * (input (i * channels_in + 2) : ℚ))))
      (width * height) out
  else out

/-- `ipl_grayscale` of `imageproc_A.c`: reduce into a fresh `width·height`
buffer (initial contents `outInit`), install it, set the channel count to
`GRAYSCALE` (numeric value 1) and the format to `JPEG`. -/
def ipl_grayscale (outInit : Buf) (image : Image) : Image × ImageProcStatus :=
  let output_data :=
    convert_to_one_channel image.data outInit image.width image.height image.channels
  ({ image with data := output_data, channels := 1, format := ImageFormat.JPEG },
    ImageProcStatus.SUCCESS)

/-!  ### Separable convolution engine (`img_ops.c`)  -/

/-- The inner accumulation loop of `horizontal_convolution`: the weighted
sum over kernel offsets `-radius..radius` (iterated as `k = offset+radius`),
sampling the column clamped to `[0, width-1]`. -/
def hconvSum (input : Buf) (channels width : ℕ) (ker : Kernel) (i j ch : ℕ) : ℚ :=
  iterN (fun k s =>
      s + (input ((i * width
              + (iclamp ((j : ℤ) + ((k : ℤ) - (ker.radius : ℤ))) 0
                  ((width : ℤ) - 1)).toNat) * channels + ch) : ℚ)
          * ker.values k)
    (2 * ker.radius + 1) 0

/-- `horizontal_convolution` of `img_ops.c`. -/
def horizontal_convolution (input : Buf) (channels width height : ℕ)
    (ker : Kernel) (out : Buf) : Buf :=
  iterN (fun i o =>
    iterN (fun j o =>
      iterN (fun ch o =>
          bufSet o ((i * width + j) * channels + ch)
            (to_uchar (hconvSum input channels width ker i j ch)))
        channels o)
      width o)
    height out

/-- The inner accumulation loop of `vertical_convolution`: like `hconvSum`
but clamping the row to `[0, height-1]`. -/
def vconvSum (input : Buf) (channels width height : ℕ) (ker : Kernel) (i j ch : ℕ) : ℚ :=
  iterN (fun k s =>
      s + (input (((iclamp ((i : ℤ) + ((k : ℤ) - (ker.radius : ℤ))) 0
              ((height : ℤ) - 1)).toNat * width + j) * channels + ch) : ℚ)
          * ker.values k)
    (2 * ker.radius + 1) 0

/-- `vertical_convolution` of `img_ops.c`. -/
def vertical_convolution (input : Buf) (channels width height : ℕ)
    (ker : Kernel) (out : Buf) : Buf :=
  iterN (fun i o =>
    iterN (fun j o =>
      iterN (fun ch o =>
          bufSet o ((i * width + j) * channels + ch)
            (to_uchar (vconvSum input channels width height ker i j ch)))
        channels o)
      width o)
    height out

/-- An `Image` whose `data` pointer may be `NULL`, for the entry points that
check it.  `none` at the outer level models a `NULL` image pointer. -/
structure NImage where
  format : ImageFormat
  width : ℕ
  height : ℕ
  channels : ℕ
  data : Option Buf

/-- `ipl_gaussian_filter` of `img_ops.c`: reject a `NULL` image or `NULL`
data or a negative sigma; succeed without touching anything when
`sigma ≤ 1e-6`; otherwise build the kernel, run the horizontal pass into a
scratch buffer (initial contents `tmpInit`) and the vertical pass back into
the image data.  Allocation failure paths are not modelled. -/
def ipl_gaussian_filter (expf : ℚ → ℚ) (tmpInit : Buf)
    (image : Option NImage) (sigma : ℚ) : Option NImage × ImageProcStatus :=
  match image with
  | none => (none, ImageProcStatus.INVALID_ARGUMENT)
  | some img =>
    match img.data with
    | none => (some img, ImageProcStatus.INVALID_ARGUMENT)
    | some d =>
      if sigma < 0 then (some img, ImageProcStatus.INVALID_ARGUMENT)
      else if sigma ≤ 1 / 1000000 then (some img, ImageProcStatus.SUCCESS)
      else
        let ker := generate_gaussian_kernel expf sigma
        let tmp := horizontal_convolution d img.channels img.width img.height ker tmpInit
        let d2 := vertical_convolution tmp img.channels img.width img.height ker d
        (some { img with data := some d2 }, ImageProcStatus.SUCCESS)

/-- The padded-canvas construction at the top of `ipl_median_filter`: for
every channel `c`, every padded row `i < height + 2·radius` and padded
column `j < width + 2·radius`, copy the edge-clamped source pixel.
`padInit` is the initial contents of the `malloc`ed canvas. -/
def makePadded (source : Buf) (width height chan radius : ℕ) (padInit : Buf) : Buf :=
  iterN (fun c p =>
    iterN (fun i p =>
      iterN (fun j p =>
          bufSet p (i * ((width + radius * 2) * chan) + j * chan + c)
            (source ((iclamp ((i : ℤ) - (radius : ℤ)) 0 ((height : ℤ) - 1)).toNat
                * (width * chan)
              + (iclamp ((j : ℤ) - (radius : ℤ)) 0 ((width : ℤ) - 1)).toNat * chan + c)))
        (width + radius * 2) p)
      (height + radius * 2) p)
    chan padInit

/-- One iteration of the median filter's inner column loop: write the
current window's median at `(i, j)` of channel `c`, then slide the
histogram one column to the right. -/
def medianJBody (padded : Buf) (wc wc_pad chan c win_size win_area i : ℕ)
    (j : ℕ) (st : Buf × Hist × ℕ) : Buf × Hist × ℕ :=
  (bufSet st.1 (i * wc + j * chan + c) (get_median st.2.1 win_area),
   (hist_move padded i wc_pad chan c win_size st.2.1 st.2.2).1,
   (hist_move padded i wc_pad chan c win_size st.2.1 st.2.2).2)

/-- One row of the median filter for one channel: seed the histogram at
column 0 (`hist_set`), run the column loop up to `width - 1`, then write
the final column `width - 1` from the last histogram state. -/
def medianRow (padded : Buf) (width wc wc_pad chan c win_size win_area i : ℕ)
    (src : Buf) : Buf :=
  bufSet
    (iterN (medianJBody padded wc wc_pad chan c win_size win_area i) (width - 1)
      (src, (hist_set padded i wc_pad 0 chan c win_size).1,
        (hist_set padded i wc_pad 0 chan c win_size).2.2)).1
    (i * wc + (width - 1) * chan + c)
    (get_median
      (iterN (medianJBody padded wc wc_pad chan c win_size win_area i) (width - 1)
        (src, (hist_set padded i wc_pad 0 chan c win_size).1,
          (hist_set padded i wc_pad 0 chan c win_size).2.2)).2.1
      win_area)

/-- The filtering loops of `ipl_median_filter`: per channel and per row,
seed a histogram and slide it across the row, writing medians back into
the source buffer in place. -/
def medianData (padInit : Buf) (image : Image) (radius : ℕ) : Buf :=
  iterN (fun c src =>
      iterN (fun i src =>
          medianRow
            (makePadded image.data image.width image.height image.channels
              radius padInit)
            image.width (image.width * image.channels)
            ((image.width + radius * 2) * image.channels)
            image.channels c (radius * 2 + 1)
            ((radius * 2 + 1) * (radius * 2 + 1)) i src)
        image.height src)
    image.channels image.data

/-- `ipl_median_filter` of `imageproc_A.c`: build the padded canvas, run
the sliding-histogram loops, and return `SUCCESS` (allocation failure is
not modelled). -/
def ipl_median_filter (padInit : Buf) (image : Image) (radius : ℕ) :
    Image × ImageProcStatus :=
  ({ image with data := medianData padInit image radius },
    ImageProcStatus.SUCCESS)

/-- The histogram state (bins and horizontal origin) of row `i` after `j`
slides: `hist_set` at column 0 followed by `j` `hist_move` steps. -/
def histAfter (padded : Buf) (i wc_pad chan c win_size : ℕ) : ℕ → Hist × ℕ
  | 0 => ((hist_set padded i wc_pad 0 chan c win_size).1,
          (hist_set padded i wc_pad 0 chan c win_size).2.2)
  | j + 1 =>
    hist_move padded i wc_pad chan c win_size
      (histAfter padded i wc_pad chan c win_size j).1
      (histAfter padded i wc_pad chan c win_size j).2

/-!  ### Sobel gradient engine (`img_ops.c`)  -/

/-- The derivative kernel `{-1, 0, 1}` of `compute_sobel_magnitude`. -/
def derivKer : ℕ → ℚ := fun k => if k = 0 then -1 else if k = 1 then 0 else 1

/-- The smoothing kernel `{1, 2, 1}` of `compute_sobel_magnitude`. -/
def smoothKer : ℕ → ℚ := fun k => if k = 0 then 1 else if k = 1 then 2 else 1

/-- A store into one of the float row buffers `dx_buf` / `dy_buf`. -/
def qset2 (f : ℕ → ℕ → ℚ) (a b : ℕ) (v : ℚ) : ℕ → ℕ → ℚ :=
  fun x y => if x = a ∧ y = b then v else f x y

/-- The horizontal derivative `dI/dx` of row `i` at column `j`: the
`[-1,0,1]` kernel over edge-clamped columns. -/
def derivX (input : Buf) (width : ℕ) (i j : ℕ) : ℚ :=
  iterN (fun k s =>
      s + (input (i * width
            + (iclamp ((j : ℤ) + ((k : ℤ) - 1)) 0 ((width : ℤ) - 1)).toNat) : ℚ)
        * derivKer k) 3 0

/-- The vertical derivative `dI/dy` of row `i` at column `j`: the
`[-1,0,1]` kernel over edge-clamped rows. -/
def derivY (input : Buf) (width height : ℕ) (i j : ℕ) : ℚ :=
  iterN (fun k s =>
      s + (input ((iclamp ((i : ℤ) + ((k : ℤ) - 1)) 0 ((height : ℤ) - 1)).toNat
            * width + j) : ℚ)
        * derivKer k) 3 0

/-- The horizontal `[1,2,1]` smoothing of a buffered `dI/dy` row, with
edge-clamped columns (the `gy` loop of `compute_sobel_magnitude`). -/
def sobelGy (dyRow : ℕ → ℚ) (width j : ℕ) : ℚ :=
  iterN (fun k s =>
      s + dyRow (iclamp ((j : ℤ) + ((k : ℤ) - 1)) 0 ((width : ℤ) - 1)).toNat
        * smoothKer k) 3 0

/-- The loop state of `compute_sobel_magnitude`: the two 3-row circular
derivative buffers and the output map. -/
structure SobelState where
  dx : ℕ → ℕ → ℚ
  dy : ℕ → ℕ → ℚ
  out : Buf

/-- One iteration of the row loop of `compute_sobel_magnitude`: fill row
`i % 3` of both circular buffers with the derivatives of row `i`; once
`i ≥ 2`, emit the gradient magnitude for row `i - 1` from the three
buffered rows. -/
def sobelBody (fsqrt : ℚ → ℚ) (input : Buf) (width height : ℕ)
    (i : ℕ) (st : SobelState) : SobelState :=
  let dx1 := iterN (fun j d => qset2 d (i % 3) j (derivX input width i j)) width st.dx
  let dy1 := iterN (fun j d => qset2 d (i % 3) j (derivY input width height i j)) width st.dy
  if i < 2 then { dx := dx1, dy := dy1, out := st.out }
  else
    { dx := dx1, dy := dy1,
      out := iterN (fun j o =>
          let gx := dx1 ((i - 2) % 3) j * smoothKer 0 + dx1 ((i - 1) % 3) j * smoothKer 1
            + dx1 (i % 3) j * smoothKer 2
          let gy := sobelGy (dy1 ((i - 1) % 3)) width j
          bufSet o ((i - 1) * width + j) (to_uchar (fsqrt (gx * gx + gy * gy))))
        width st.out }

/-- `compute_sobel_magnitude` of `img_ops.c`, with the C library `sqrtf`
abstract.  `out0`, `dx0`, `dy0` are the initial contents of the output
map and of the two (uninitialised) stack buffers. -/
def compute_sobel_magnitude (fsqrt : ℚ → ℚ) (input : Buf) (width height : ℕ)
    (out0 : Buf) (dx0 dy0 : ℕ → ℕ → ℚ) : Buf :=
  (iterN (sobelBody fsqrt input width height) height
    { dx := dx0, dy := dy0, out := out0 }).out

/-- The closed-form value emitted for output row `r` (requires `r ≥ 1`):
`Gx` is the `[1,2,1]` vertical smoothing of the `dI/dx` of rows
`r-1, r, r+1`; `Gy` is the `[1,2,1]` horizontal smoothing of the `dI/dy`
of row `r`. -/
def sobelValue (fsqrt : ℚ → ℚ) (input : Buf) (width height : ℕ) (r j : ℕ) : ℕ :=
  let gx := derivX input width (r - 1) j * smoothKer 0 + derivX input width r j * smoothKer 1
    + derivX input width (r + 1) j * smoothKer 2
  let gy := sobelGy (derivY input width height r) width j
  to_uchar (fsqrt (gx * gx + gy * gy))

/-- The buffer produced by `ipl_sobel_edge_detection`: grayscale reduction
into a fresh buffer (initial contents `grayInit`), then the gradient map
into a `calloc`ed (all-zero) buffer. -/
def sobelData (fsqrt : ℚ → ℚ) (grayInit : Buf) (dx0 dy0 : ℕ → ℕ → ℚ)
    (image : Image) : Buf :=
  compute_sobel_magnitude fsqrt
    (convert_to_one_channel image.data grayInit image.width image.height image.channels)
    image.width image.height (fun _ => 0) dx0 dy0

/-- `ipl_sobel_edge_detection` of `img_ops.c`: replace the data with the
1-channel gradient map and set the channel count to 1 (null-pointer and
allocation-failure paths are not modelled). -/
def ipl_sobel_edge_detection (fsqrt : ℚ → ℚ) (grayInit : Buf) (dx0 dy0 : ℕ → ℕ → ℚ)
    (image : Image) : Image × ImageProcStatus :=
  ({ image with channels := 1, data := sobelData fsqrt grayInit dx0 dy0 image },
    ImageProcStatus.SUCCESS)

/-- The row invariant of the Sobel scan: after processing rows `0..i-1`,
the circular buffers hold the derivatives of the last (up to) three rows,
and the output map holds the gradient magnitudes exactly for rows
`1..i-2`, everything else untouched. -/
def SobelInv (fsqrt : ℚ → ℚ) (input : Buf) (width height : ℕ) (out0 : Buf)
    (i : ℕ) (st : SobelState) : Prop :=
  (∀ i2 j2, i2 < i → i ≤ i2 + 3 → j2 < width →
    st.dx (i2 % 3) j2 = derivX input width i2 j2 ∧
    st.dy (i2 % 3) j2 = derivY input width height i2 j2) ∧
  (∀ r j2, j2 < width →
    st.out (r * width + j2)
      = if 1 ≤ r ∧ r + 2 ≤ i then sobelValue fsqrt input width height r j2
        else out0 (r * width + j2))

/-!  ## Generic loop lemmas  -/

theorem iterN_const {α : Type} (f : ℕ → α → α) (n : ℕ) (a : α)
    (h : ∀ k b, k < n → f k b = b) : iterN f n a = a := by
  induction n with
  | zero => rfl
  | succ m ih =>
    have hm : iterN f m a = a := ih (fun k b hk => h k b (Nat.lt_succ_of_lt hk))
    simp [iterN, hm, h m a (Nat.lt_succ_self m)]

theorem iterN_inv {α : Type} (I : ℕ → α → Prop) (f : ℕ → α → α) (n : ℕ) (a : α)
    (h0 : I 0 a) (hstep : ∀ k b, k < n → I k b → I (k + 1) (f k b)) :
    I n (iterN f n a) := by
  induction n with
  | zero => exact h0
  | succ m ih =>
    exact hstep m _ (Nat.lt_succ_self m)
      (ih (fun k b hk => hstep k b (Nat.lt_succ_of_lt hk)))

theorem iterN_frame {α β : Type} (p : α → β) (f : ℕ → α → α) (n : ℕ) (a : α)
    (h : ∀ k b, k < n → p (f k b) = p b) : p (iterN f n a) = p a := by
  induction n with
  | zero => rfl
  | succ m ih =>
    have hm := ih (fun k b hk => h k b (Nat.lt_succ_of_lt hk))
    calc p (f m (iterN f m a)) = p (iterN f m a) := h m _ (Nat.lt_succ_self m)
    _ = p a := hm

/-- Evaluate an observation `p` of a loop's final state when exactly the
iteration `k0` determines it: `k0` establishes value `v` (given an
invariant accumulated over iterations `0, …, k0-1`), and all later
iterations leave the observation unchanged. -/
theorem iterN_lookup {α β : Type} (p : α → β) (I : ℕ → α → Prop)
    (f : ℕ → α → α) (n k0 : ℕ) (a : α) (v : β)
    (hk : k0 < n) (h0 : I 0 a)
    (hstep : ∀ k b, k < k0 → I k b → I (k + 1) (f k b))
    (hval : ∀ b, I k0 b → p (f k0 b) = v)
    (hframe : ∀ k b, k0 < k → k < n → p (f k b) = p b) :
    p (iterN f n a) = v := by
  induction n with
  | zero => exact absurd hk (Nat.not_lt_zero k0)
  | succ m ih =>
    rcases Nat.lt_succ_iff_lt_or_eq.mp hk with hlt | heq
    · calc p (f m (iterN f m a)) = p (iterN f m a) :=
        hframe m _ hlt (Nat.lt_succ_self m)
      _ = v := ih hlt (fun k b h1 h2 => hframe k b h1 (Nat.lt_succ_of_lt h2))
    · subst heq
      exact hval _ (iterN_inv I f k0 a h0 hstep)

/-- `iterN_lookup` with a trivial invariant. -/
theorem iterN_lookupT {α β : Type} (p : α → β)
    (f : ℕ → α → α) (n k0 : ℕ) (a : α) (v : β)
    (hk : k0 < n)
    (hval : ∀ b, p (f k0 b) = v)
    (hframe : ∀ k b, k0 < k → k < n → p (f k b) = p b) :
    p (iterN f n a) = v :=
  iterN_lookup p (fun _ _ => True) f n k0 a v hk trivial
    (fun _ _ _ _ => trivial) (fun b _ => hval b) hframe

/-- An accumulation loop is a `Finset.range` sum. -/
theorem iterN_sum (g : ℕ → ℚ) (n : ℕ) (s0 : ℚ) :
    iterN (fun k s => s + g k) n s0 = s0 + ∑ k ∈ Finset.range n, g k := by
  induction n with
  | zero => simp [iterN]
  | succ m ih => simp [iterN, ih, Finset.sum_range_succ]; ring

/-!  ## Index arithmetic  -/

theorem enc2_inj {c x y r s : ℕ} (hr : r < c) (hs : s < c)
    (h : x * c + r = y * c + s) : x = y ∧ r = s := by
  have hmod : r = s := by
    have h1 : (r + x * c) % c = (s + y * c) % c := by
      rw [Nat.add_comm r (x * c), Nat.add_comm s (y * c)]
      exact congrArg (· % c) h
    rwa [Nat.add_mul_mod_self_right, Nat.add_mul_mod_self_right,
      Nat.mod_eq_of_lt hr, Nat.mod_eq_of_lt hs] at h1
  refine ⟨?_, hmod⟩
  subst hmod
  have hc : 0 < c := Nat.pos_of_ne_zero (by rintro rfl; exact Nat.not_lt_zero r hr)
  have := Nat.add_right_cancel h
  exact Nat.eq_of_mul_eq_mul_right hc this

theorem bufSet_same (b : Buf) (i v : ℕ) : bufSet b i v i = v := by
  simp [bufSet]

theorem bufSet_other (b : Buf) {i k : ℕ} (v : ℕ) (h : k ≠ i) :
    bufSet b i v k = b k := by
  simp [bufSet, h]

theorem iclamp_mem {v lo hi : ℤ} (h : lo ≤ hi) :
    lo ≤ iclamp v lo hi ∧ iclamp v lo hi ≤ hi := by
  unfold iclamp; split_ifs <;> omega

theorem iclamp_toNat_lt {v : ℤ} {w : ℕ} (hw : 1 ≤ w) :
    (iclamp v 0 ((w : ℤ) - 1)).toNat < w := by
  have h := @iclamp_mem v 0 ((w : ℤ) - 1) (by omega)
  omega

/-!  ## Claim C2: the median scan  -/

theorem presumH_succ (h : Hist) (m : ℕ) : presumH h (m + 1) = presumH h m + h m := by
  simp [presumH, Finset.sum_range_succ]

theorem medianScan_spec (h : Hist) (half : ℤ) :
    ∀ fuel i, i + fuel = 256 → presumH h 256 > half →
      (∀ k, k < i → presumH h (k + 1) ≤ half) →
      medianScan h half fuel i (presumH h i) < 256 ∧
      presumH h (medianScan h half fuel i (presumH h i) + 1) > half ∧
      ∀ k, k < medianScan h half fuel i (presumH h i) →
        presumH h (k + 1) ≤ half := by
  intro fuel
  induction fuel with
  | zero =>
    intro i hi htot hbelow
    exfalso
    have : i = 256 := by omega
    subst this
    exact absurd htot (not_lt.mpr (hbelow 255 (by omega)))
  | succ m ih =>
    intro i hi htot hbelow
    by_cases hcase : presumH h i + h i > half
    · have hstep : medianScan h half (m + 1) i (presumH h i) = i := by
        simp [medianScan, hcase]
      rw [hstep]
      refine ⟨by omega, ?_, hbelow⟩
      rw [presumH_succ]; exact hcase
    · have hstep : medianScan h half (m + 1) i (presumH h i)
          = medianScan h half m (i + 1) (presumH h (i + 1)) := by
        rw [presumH_succ]
        simp [medianScan, hcase]
      rw [hstep]
      refine ih (i + 1) (by omega) htot ?_
      intro k hk
      rcases Nat.lt_succ_iff_lt_or_eq.mp hk with hk' | hk'
      · exact hbelow k hk'
      · subst hk'; rw [presumH_succ]; exact not_lt.mp hcase

/-- Claim C2: on a histogram whose 256 bins total the window area
`A = (2·radius+1)²`, `get_median` returns the smallest bin `m` whose
cumulative count of bins `0..m` strictly exceeds `⌊A/2⌋`. -/
theorem get_median_is_least_exceeding_half (h : Hist) (radius : ℕ)
    (htot : presumH h 256 = ((2 * radius + 1) * (2 * radius + 1) : ℕ)) :
    get_median h ((2 * radius + 1) * (2 * radius + 1)) < 256 ∧
    presumH h (get_median h ((2 * radius + 1) * (2 * radius + 1)) + 1)
      > (((2 * radius + 1) * (2 * radius + 1) : ℕ) : ℤ) / 2 ∧
    ∀ k, k < get_median h ((2 * radius + 1) * (2 * radius + 1)) →
      presumH h (k + 1) ≤ (((2 * radius + 1) * (2 * radius + 1) : ℕ) : ℤ) / 2 := by
  have hA : (1 : ℤ) ≤ (((2 * radius + 1) * (2 * radius + 1) : ℕ) : ℤ) := by
    have : 1 ≤ (2 * radius + 1) * (2 * radius + 1) := Nat.one_le_iff_ne_zero.mpr (by positivity)
    exact_mod_cast this
  have htot' : presumH h 256 > (((2 * radius + 1) * (2 * radius + 1) : ℕ) : ℤ) / 2 := by
    rw [htot]; omega
  have h0 : presumH h 0 = 0 := by simp [presumH]
  have := medianScan_spec h ((((2 * radius + 1) * (2 * radius + 1) : ℕ) : ℤ) / 2)
    256 0 (by omega) htot' (fun k hk => absurd hk (Nat.not_lt_zero k))
  rw [h0] at this
  unfold get_median
  exact this

/-- Witness for C2: the histogram concentrated at bin 7 with count 9
(radius 1, window area 9) has median 7. -/
theorem get_median_is_least_exceeding_half_witness :
    presumH (fun v => if v = 7 then 9 else 0) 256 = ((2 * 1 + 1) * (2 * 1 + 1) : ℕ) ∧
    (get_median (fun v => if v = 7 then 9 else 0) ((2 * 1 + 1) * (2 * 1 + 1)) < 256 ∧
     presumH (fun v => if v = 7 then 9 else 0)
        (get_median (fun v => if v = 7 then 9 else 0) ((2 * 1 + 1) * (2 * 1 + 1)) + 1)
       > (((2 * 1 + 1) * (2 * 1 + 1) : ℕ) : ℤ) / 2 ∧
     ∀ k, k < get_median (fun v => if v = 7 then 9 else 0) ((2 * 1 + 1) * (2 * 1 + 1)) →
       presumH (fun v => if v = 7 then 9 else 0) (k + 1)
         ≤ (((2 * 1 + 1) * (2 * 1 + 1) : ℕ) : ℤ) / 2) := by
  have htot : presumH (fun v => if v = 7 then 9 else 0) 256
      = ((2 * 1 + 1) * (2 * 1 + 1) : ℕ) := by
    simp [presumH, Finset.sum_ite_eq' (Finset.range 256) 7 (fun _ => (9 : ℤ))]
  exact ⟨htot, get_median_is_least_exceeding_half (fun v => if v = 7 then 9 else 0) 1 htot⟩

/-!  ## Claim C3: the Gaussian kernel  -/

theorem sum_range_shift (f : ℤ → ℚ) (r : ℕ) :
    ∑ k ∈ Finset.range (2 * r + 1), f ((k : ℤ) - (r : ℤ))
      = ∑ o ∈ Finset.Icc (-(r : ℤ)) (r : ℤ), f o := by
  have himg : Finset.Icc (-(r : ℤ)) (r : ℤ)
      = (Finset.range (2 * r + 1)).image (fun k : ℕ => (k : ℤ) - (r : ℤ)) := by
    ext x
    simp only [Finset.mem_Icc, Finset.mem_image, Finset.mem_range]
    constructor
    · intro hx
      exact ⟨(x + (r : ℤ)).toNat, by omega, by omega⟩
    · rintro ⟨k, hk, rfl⟩
      omega
  rw [himg, Finset.sum_image]
  intro a _ b _ hab
  omega

theorem gaussSum_pos (expf : ℚ → ℚ) (sigma : ℚ) (hexp : ∀ q, 0 < expf q) (r : ℕ) :
    0 < ∑ k ∈ Finset.range (2 * r + 1), gaussRaw expf sigma ((k : ℤ) - (r : ℤ)) :=
  Finset.sum_pos (fun k _ => hexp _) (by simp)

/-- Claim C3: for `sigma > 0` and a positive `expf`, the generated kernel has
radius `⌈3·sigma⌉`, its entry at offset `i ∈ [-radius, radius]` is the raw
Gaussian weight divided by the sum of all raw weights, the entries over the
`2·radius+1` slots sum to exactly 1 (hence to 1 within `1e-4`), and the
entries are exactly symmetric. -/
theorem generate_gaussian_kernel_spec (expf : ℚ → ℚ) (sigma : ℚ)
    (hsigma : 0 < sigma) (hexp : ∀ q, 0 < expf q) :
    (((generate_gaussian_kernel expf sigma).radius : ℤ) = Int.ceil (3 * sigma)) ∧
    (∀ i : ℤ, -((generate_gaussian_kernel expf sigma).radius : ℤ) ≤ i →
      i ≤ ((generate_gaussian_kernel expf sigma).radius : ℤ) →
      (generate_gaussian_kernel expf sigma).values
          (i + ((generate_gaussian_kernel expf sigma).radius : ℤ)).toNat
        = gaussRaw expf sigma i /
            ∑ o ∈ Finset.Icc (-((generate_gaussian_kernel expf sigma).radius : ℤ))
              ((generate_gaussian_kernel expf sigma).radius : ℤ), gaussRaw expf sigma o) ∧
    (∑ k ∈ Finset.range (2 * (generate_gaussian_kernel expf sigma).radius + 1),
        (generate_gaussian_kernel expf sigma).values k = 1) ∧
    (|(∑ k ∈ Finset.range (2 * (generate_gaussian_kernel expf sigma).radius + 1),
        (generate_gaussian_kernel expf sigma).values k) - 1| ≤ 1 / 10000) ∧
    (∀ k, k ≤ 2 * (generate_gaussian_kernel expf sigma).radius →
      (generate_gaussian_kernel expf sigma).values k
        = (generate_gaussian_kernel expf sigma).values
            (2 * (generate_gaussian_kernel expf sigma).radius - k)) := by
  set r : ℕ := (Int.ceil (3 * sigma)).toNat with hr
  have hradius : (generate_gaussian_kernel expf sigma).radius = r := rfl
  have hceil : (0 : ℤ) ≤ Int.ceil (3 * sigma) := by
    have : (0 : ℚ) < 3 * sigma := by linarith
    exact le_of_lt (Int.ceil_pos.mpr this)
  have hvalues : ∀ k, (generate_gaussian_kernel expf sigma).values k
      = gaussRaw expf sigma ((k : ℤ) - (r : ℤ)) /
          ∑ j ∈ Finset.range (2 * r + 1), gaussRaw expf sigma ((j : ℤ) - (r : ℤ)) := by
    intro k
    show gaussRaw expf sigma ((k : ℤ) - (r : ℤ)) /
        iterN (fun j s => s + gaussRaw expf sigma ((j : ℤ) - (r : ℤ))) (2 * r + 1) 0 = _
    rw [iterN_sum, zero_add]
  have hS : 0 < ∑ j ∈ Finset.range (2 * r + 1), gaussRaw expf sigma ((j : ℤ) - (r : ℤ)) :=
    gaussSum_pos expf sigma hexp r
  refine ⟨?_, ?_, ?_, ?_, ?_⟩
  · rw [hradius, hr]
    omega
  · intro i hlo hhi
    rw [hradius] at hlo hhi ⊢
    rw [hvalues, sum_range_shift]
    have hcast : (((i + (r : ℤ)).toNat : ℤ) - (r : ℤ)) = i := by omega
    rw [hcast]
  · rw [hradius]
    calc ∑ k ∈ Finset.range (2 * r + 1), (generate_gaussian_kernel expf sigma).values k
        = ∑ k ∈ Finset.range (2 * r + 1), gaussRaw expf sigma ((k : ℤ) - (r : ℤ)) /
            ∑ j ∈ Finset.range (2 * r + 1), gaussRaw expf sigma ((j : ℤ) - (r : ℤ)) := by
          exact Finset.sum_congr rfl (fun k _ => hvalues k)
    _ = (∑ k ∈ Finset.range (2 * r + 1), gaussRaw expf sigma ((k : ℤ) - (r : ℤ))) /
            ∑ j ∈ Finset.range (2 * r + 1), gaussRaw expf sigma ((j : ℤ) - (r : ℤ)) := by
          rw [Finset.sum_div]
    _ = 1 := div_self (ne_of_gt hS)
  · have h1 : ∑ k ∈ Finset.range (2 * (generate_gaussian_kernel expf sigma).radius + 1),
        (generate_gaussian_kernel expf sigma).values k = 1 := by
      rw [hradius]
      calc ∑ k ∈ Finset.range (2 * r + 1), (generate_gaussian_kernel expf sigma).values k
          = ∑ k ∈ Finset.range (2 * r + 1), gaussRaw expf sigma ((k : ℤ) - (r : ℤ)) /
              ∑ j ∈ Finset.range (2 * r + 1), gaussRaw expf sigma ((j : ℤ) - (r : ℤ)) := by
            exact Finset.sum_congr rfl (fun k _ => hvalues k)
      _ = (∑ k ∈ Finset.range (2 * r + 1), gaussRaw expf sigma ((k : ℤ) - (r : ℤ))) /
              ∑ j ∈ Finset.range (2 * r + 1), gaussRaw expf sigma ((j : ℤ) - (r : ℤ)) := by
            rw [Finset.sum_div]
      _ = 1 := div_self (ne_of_gt hS)
    rw [h1]
    norm_num
  · intro k hk
    rw [hradius] at hk ⊢
    rw [hvalues, hvalues]
    have harg : (((2 * r - k : ℕ) : ℤ) - (r : ℤ)) * (((2 * r - k : ℕ) : ℤ) - (r : ℤ))
        = ((k : ℤ) - (r : ℤ)) * ((k : ℤ) - (r : ℤ)) := by
      have : ((2 * r - k : ℕ) : ℤ) = 2 * (r : ℤ) - (k : ℤ) := by omega
      rw [this]; ring
    unfold gaussRaw
    rw [harg]

/-- Witness for C3 at `sigma = 1` with the constant positive function. -/
theorem generate_gaussian_kernel_spec_witness :
    (0 : ℚ) < 1 ∧ (∀ q : ℚ, 0 < (fun _ : ℚ => (1 : ℚ)) q) ∧
    ((((generate_gaussian_kernel (fun _ => 1) 1).radius : ℤ) = Int.ceil ((3 : ℚ) * 1)) ∧
     (∀ i : ℤ, -((generate_gaussian_kernel (fun _ => 1) 1).radius : ℤ) ≤ i →
       i ≤ ((generate_gaussian_kernel (fun _ => 1) 1).radius : ℤ) →
       (generate_gaussian_kernel (fun _ => 1) 1).values
           (i + ((generate_gaussian_kernel (fun _ => 1) 1).radius : ℤ)).toNat
         = gaussRaw (fun _ => 1) 1 i /
             ∑ o ∈ Finset.Icc (-((generate_gaussian_kernel (fun _ => 1) 1).radius : ℤ))
               ((generate_gaussian_kernel (fun _ => 1) 1).radius : ℤ),
               gaussRaw (fun _ => 1) 1 o) ∧
     (∑ k ∈ Finset.range (2 * (generate_gaussian_kernel (fun _ => 1) 1).radius + 1),
         (generate_gaussian_kernel (fun _ => 1) 1).values k = 1) ∧
     (|(∑ k ∈ Finset.range (2 * (generate_gaussian_kernel (fun _ => 1) 1).radius + 1),
         (generate_gaussian_kernel (fun _ => 1) 1).values k) - 1| ≤ 1 / 10000) ∧
     (∀ k, k ≤ 2 * (generate_gaussian_kernel (fun _ => 1) 1).radius →
       (generate_gaussian_kernel (fun _ => 1) 1).values k
         = (generate_gaussian_kernel (fun _ => 1) 1).values
             (2 * (generate_gaussian_kernel (fun _ => 1) 1).radius - k))) :=
  ⟨by norm_num, fun _ => by norm_num,
    generate_gaussian_kernel_spec (fun _ => 1) 1 (by norm_num) (fun _ => by norm_num)⟩

/-!  ## Claim C7: the histogram sum invariant  -/

theorem presumH_incr (h : Hist) {v : ℕ} (hv : v < 256) :
    presumH (histIncr h v) 256 = presumH h 256 + 1 := by
  unfold presumH histIncr
  rw [Finset.sum_congr rfl
    (fun u _ => show (if u = v then h u + 1 else h u) = h u + (if u = v then 1 else 0) by
      split_ifs <;> simp)]
  rw [Finset.sum_add_distrib]
  simp [Finset.sum_ite_eq' (Finset.range 256) v (fun _ => (1 : ℤ)), hv]

theorem presumH_decr (h : Hist) {v : ℕ} (hv : v < 256) :
    presumH (histDecr h v) 256 = presumH h 256 - 1 := by
  unfold presumH histDecr
  rw [Finset.sum_congr rfl
    (fun u _ => show (if u = v then h u - 1 else h u) = h u - (if u = v then 1 else 0) by
      split_ifs <;> simp)]
  rw [Finset.sum_sub_distrib]
  simp [Finset.sum_ite_eq' (Finset.range 256) v (fun _ => (1 : ℤ)), hv]

theorem presumH_incr_loop (g : ℕ → ℕ) (n : ℕ) (hg : ∀ k, k < n → g k < 256) (h : Hist) :
    presumH (iterN (fun k h => histIncr h (g k)) n h) 256 = presumH h 256 + n := by
  induction n with
  | zero => simp [iterN]
  | succ m ih =>
    show presumH (histIncr (iterN (fun k h => histIncr h (g k)) m h) (g m)) 256 = _
    rw [presumH_incr _ (hg m (Nat.lt_succ_self m)),
      ih (fun k hk => hg k (Nat.lt_succ_of_lt hk))]
    push_cast; ring

theorem presumH_decr_loop (g : ℕ → ℕ) (n : ℕ) (hg : ∀ k, k < n → g k < 256) (h : Hist) :
    presumH (iterN (fun k h => histDecr h (g k)) n h) 256 = presumH h 256 - n := by
  induction n with
  | zero => simp [iterN]
  | succ m ih =>
    show presumH (histDecr (iterN (fun k h => histDecr h (g k)) m h) (g m)) 256 = _
    rw [presumH_decr _ (hg m (Nat.lt_succ_self m)),
      ih (fun k hk => hg k (Nat.lt_succ_of_lt hk))]
    push_cast; ring

/-- Claim C7: with `w = 2·radius+1` and byte-valued padded data, the 256 bin
counts of the histogram sum to the window area `w²` right after `hist_set`
seeds it, and `hist_move` (which removes the `w` pixels of the leaving
column and adds the `w` pixels of the entering column) preserves that sum. -/
theorem histogram_sum_invariant (padded : Buf) (radius y ldp x channels c : ℕ)
    (hbytes : ∀ idx, padded idx < 256) :
    presumH (hist_set padded y ldp x channels c (2 * radius + 1)).1 256
      = (((2 * radius + 1) * (2 * radius + 1) : ℕ) : ℤ) ∧
    ∀ h hx, presumH h 256 = (((2 * radius + 1) * (2 * radius + 1) : ℕ) : ℤ) →
      presumH (hist_move padded y ldp channels c (2 * radius + 1) h hx).1 256
        = (((2 * radius + 1) * (2 * radius + 1) : ℕ) : ℤ) := by
  constructor
  · show presumH (iterN (fun iw h =>
        iterN (fun jw h =>
            histIncr h (padded ((y + iw) * ldp + (x + jw) * channels + c)))
          (2 * radius + 1) h)
      (2 * radius + 1) (fun _ => 0)) 256
      = (((2 * radius + 1) * (2 * radius + 1) : ℕ) : ℤ)
    have key := iterN_inv
      (fun k h' => presumH h' 256 = (k : ℤ) * ((2 * radius + 1 : ℕ) : ℤ))
      (fun iw h =>
        iterN (fun jw h =>
            histIncr h (padded ((y + iw) * ldp + (x + jw) * channels + c)))
          (2 * radius + 1) h)
      (2 * radius + 1) (fun _ => 0) (by simp [presumH])
      (fun k b _ hI => by
        dsimp only at hI ⊢
        rw [presumH_incr_loop _ _ (fun j _ => hbytes _) b, hI]
        push_cast; ring)
    rw [key]
    push_cast; ring
  · intro h hx hsum
    show presumH (iterN (fun iw h =>
        histIncr h (padded ((y + iw) * ldp + (hx + 1 + (2 * radius + 1) - 1) * channels + c)))
      (2 * radius + 1)
      (iterN (fun iw h =>
          histDecr h (padded ((y + iw) * ldp + hx * channels + c)))
        (2 * radius + 1) h)) 256
      = (((2 * radius + 1) * (2 * radius + 1) : ℕ) : ℤ)
    rw [presumH_incr_loop _ _ (fun j _ => hbytes _),
      presumH_decr_loop _ _ (fun j _ => hbytes _), hsum]
    ring

/-- Witness for C7: the all-zero padded buffer, radius 0. -/
theorem histogram_sum_invariant_witness :
    (∀ idx, (fun _ => 0 : Buf) idx < 256) ∧
    (presumH (hist_set (fun _ => 0) 0 1 0 1 0 (2 * 0 + 1)).1 256
       = (((2 * 0 + 1) * (2 * 0 + 1) : ℕ) : ℤ) ∧
     ∀ h hx, presumH h 256 = (((2 * 0 + 1) * (2 * 0 + 1) : ℕ) : ℤ) →
       presumH (hist_move (fun _ => 0) 0 1 1 0 (2 * 0 + 1) h hx).1 256
         = (((2 * 0 + 1) * (2 * 0 + 1) : ℕ) : ℤ)) :=
  ⟨fun _ => by norm_num,
    histogram_sum_invariant (fun _ => 0) 0 0 1 0 1 0 (fun _ => by norm_num)⟩

/-!  ## Claim C4: the channel reducer  -/

theorem to_uchar_eq_roundClamp (q : ℚ) : to_uchar q = roundClamp q := by
  unfold to_uchar roundClamp
  split_ifs with h1 h2
  · have hmax : max q 0 = 0 := max_eq_right (le_of_lt h1)
    rw [hmax]
    norm_num
  · have hmax : max q 0 = q := max_eq_left (not_lt.mp h1)
    have hmin : min q 255 = 255 := min_eq_right (le_of_lt h2)
    rw [hmax, hmin]
    norm_num
    rfl
  · have hmax : max q 0 = q := max_eq_left (not_lt.mp h1)
    have hmin : min q 255 = q := min_eq_left (not_lt.mp h2)
    rw [hmax, hmin]

/-- A loop writing value `v k` at index `e k` on each iteration `k` yields
`v i` at index `e i` when no later iteration hits the same index. -/
theorem iterN_bufSet_lookup (n i : ℕ) (out : Buf) (e v : ℕ → ℕ)
    (hi : i < n) (hinj : ∀ k, i < k → k < n → e i ≠ e k) :
    iterN (fun k b => bufSet b (e k) (v k)) n out (e i) = v i :=
  iterN_lookupT (fun b => b (e i)) _ n i out (v i) hi
    (fun b => bufSet_same b (e i) (v i))
    (fun k b hik hkn => bufSet_other b (v k) (hinj k hik hkn))

/-- Claim C4: for 3- or 4-channel input the reducer writes
`round(clamp(0.299·R + 0.587·G + 0.114·B, 0, 255))` at every pixel (alpha
ignored); for 1-channel input it is a byte-for-byte copy; on a uniform
3-channel image of colour `(R,G,B)` every output pixel is the same rounded
luma value. -/
theorem convert_to_one_channel_spec (input out : Buf) (width height channels_in : ℕ) :
    ((channels_in = 3 ∨ channels_in = 4) → ∀ i, i < width * height →
      convert_to_one_channel input out width height channels_in i
        = roundClamp ((299 / 1000 : ℚ) * (input (i * channels_in) : ℚ)
            + (587 / 1000) * (input (i * channels_in + 1) : ℚ)
            + (114 / 1000) * (input (i * channels_in + 2) : ℚ))) ∧
    (channels_in = 1 → ∀ i, i < height * width →
      convert_to_one_channel input out width height channels_in i = input i) ∧
    (∀ R G B : ℕ, ∀ i, i < width * height →
      convert_to_one_channel
          (fun idx => if idx % 3 = 0 then R else if idx % 3 = 1 then G else B)
          out width height 3 i
        = roundClamp ((299 / 1000 : ℚ) * (R : ℚ) + (587 / 1000) * (G : ℚ)
            + (114 / 1000) * (B : ℚ))) := by
  have hmain : ∀ (inp : Buf) (ch : ℕ), (ch = 3 ∨ ch = 4) → ∀ i, i < width * height →
      convert_to_one_channel inp out width height ch i
        = roundClamp ((299 / 1000 : ℚ) * (inp (i * ch) : ℚ)
            + (587 / 1000) * (inp (i * ch + 1) : ℚ)
            + (114 / 1000) * (inp (i * ch + 2) : ℚ)) := by
    intro inp ch hch i hi
    have hne1 : ¬ ch = 1 := by rcases hch with h | h <;> omega
    unfold convert_to_one_channel
    rw [if_neg hne1, if_pos hch, ← to_uchar_eq_roundClamp]
    exact iterN_bufSet_lookup (width * height) i out (fun k => k) _ hi
      (fun k hik _ => Nat.ne_of_lt hik)
  refine ⟨hmain input channels_in, ?_, ?_⟩
  · intro hch i hi
    unfold convert_to_one_channel
    rw [if_pos hch, if_pos hi]
  · intro R G B i hi
    rw [hmain (fun idx => if idx % 3 = 0 then R else if idx % 3 = 1 then G else B)
      3 (Or.inl rfl) i hi]
    have e0 : (i * 3) % 3 = 0 := by omega
    have e1 : (i * 3 + 1) % 3 = 1 := by omega
    have e2 : (i * 3 + 2) % 3 = 2 := by omega
    simp only [e0, e1, e2]
    norm_num

/-!  ## Claim C10: grayscale frame effect  -/

/-- Claim C10: a successful `ipl_grayscale` installs the reduced 1-channel
buffer, sets `channels` to 1 and unconditionally overwrites `format` with
`JPEG`, leaving `width` and `height` unchanged, and returns `SUCCESS`. -/
theorem ipl_grayscale_frame (outInit : Buf) (image : Image) :
    (ipl_grayscale outInit image).1.format = ImageFormat.JPEG ∧
    (ipl_grayscale outInit image).1.channels = 1 ∧
    (ipl_grayscale outInit image).1.width = image.width ∧
    (ipl_grayscale outInit image).1.height = image.height ∧
    (ipl_grayscale outInit image).1.data
      = convert_to_one_channel image.data outInit image.width image.height image.channels ∧
    (ipl_grayscale outInit image).2 = ImageProcStatus.SUCCESS :=
  ⟨rfl, rfl, rfl, rfl, rfl, rfl⟩

/-- Witness for C4: a uniform value 10 in all three channels reduces to
luma 10 at pixel 0 of a 1×1 image. -/
theorem convert_to_one_channel_spec_witness :
    ((3 : ℕ) = 3 ∨ (3 : ℕ) = 4) ∧ ((0 : ℕ) < 1 * 1) ∧
    convert_to_one_channel (fun _ => 10) (fun _ => 0) 1 1 3 0 = 10 := by
  refine ⟨Or.inl rfl, by norm_num, ?_⟩
  have h := (convert_to_one_channel_spec (fun _ => 10) (fun _ => 0) 1 1 3).1
    (Or.inl rfl) 0 (by norm_num)
  rw [h]
  unfold roundClamp
  norm_num
  rfl

/-!  ## Claim C1: the horizontal convolution pass  -/

/-- Claim C1: for a 1-, 3- or 4-channel image, at every row `i`, column `j`
and channel `ch`, the horizontal pass stores
`round(clamp(Σ_{o∈[-r,r]} weights[o+r] · input[i, clamp(j+o, 0, width-1), ch],
0, 255))`. -/
theorem horizontal_convolution_spec (input out : Buf)
    (channels width height : ℕ) (ker : Kernel) (i j ch : ℕ)
    (hchannels : channels = 1 ∨ channels = 3 ∨ channels = 4)
    (hi : i < height) (hj : j < width) (hc : ch < channels) :
    horizontal_convolution input channels width height ker out
        ((i * width + j) * channels + ch)
      = roundClamp (∑ o ∈ Finset.Icc (-(ker.radius : ℤ)) (ker.radius : ℤ),
          ker.values (o + (ker.radius : ℤ)).toNat *
            (input ((i * width + (iclamp ((j : ℤ) + o) 0 ((width : ℤ) - 1)).toNat)
                * channels + ch) : ℚ)) := by
  have hsum : hconvSum input channels width ker i j ch
      = ∑ o ∈ Finset.Icc (-(ker.radius : ℤ)) (ker.radius : ℤ),
          ker.values (o + (ker.radius : ℤ)).toNat *
            (input ((i * width + (iclamp ((j : ℤ) + o) 0 ((width : ℤ) - 1)).toNat)
                * channels + ch) : ℚ) := by
    unfold hconvSum
    rw [iterN_sum, zero_add, ← sum_range_shift
      (fun o => ker.values (o + (ker.radius : ℤ)).toNat *
        (input ((i * width + (iclamp ((j : ℤ) + o) 0 ((width : ℤ) - 1)).toNat)
            * channels + ch) : ℚ)) ker.radius]
    refine Finset.sum_congr rfl ?_
    intro k _
    have harg : ((k : ℤ) - (ker.radius : ℤ) + (ker.radius : ℤ)).toNat = k := by omega
    rw [harg, mul_comm]
  set idx := (i * width + j) * channels + ch with hidx
  have hframe_inner : ∀ (i2 j2 : ℕ), i2 * width + j2 ≠ i * width + j → ∀ o : Buf,
      iterN (fun ch2 o =>
          bufSet o ((i2 * width + j2) * channels + ch2)
            (to_uchar (hconvSum input channels width ker i2 j2 ch2)))
        channels o idx = o idx := by
    intro i2 j2 hne o
    refine iterN_frame (fun b => b idx) _ channels o ?_
    intro k b hk
    refine bufSet_other b _ ?_
    intro he
    exact hne ((enc2_inj hc hk he).1).symm
  have hinner : ∀ o : Buf,
      iterN (fun ch2 o =>
          bufSet o ((i * width + j) * channels + ch2)
            (to_uchar (hconvSum input channels width ker i j ch2)))
        channels o idx = to_uchar (hconvSum input channels width ker i j ch) := by
    intro o
    exact iterN_bufSet_lookup channels ch o
      (fun ch2 => (i * width + j) * channels + ch2)
      (fun ch2 => to_uchar (hconvSum input channels width ker i j ch2)) hc
      (fun k hik _ he => Nat.ne_of_lt hik (Nat.add_left_cancel he))
  have hmid : ∀ o : Buf,
      iterN (fun j2 o =>
        iterN (fun ch2 o =>
            bufSet o ((i * width + j2) * channels + ch2)
              (to_uchar (hconvSum input channels width ker i j2 ch2)))
          channels o)
        width o idx = to_uchar (hconvSum input channels width ker i j ch) := by
    intro o
    refine iterN_lookupT (fun b => b idx) _ width j o _ hj ?_ ?_
    · exact fun b => hinner b
    intro k b hjk hkw
    exact hframe_inner i k
      (fun he => Nat.ne_of_lt hjk (Nat.add_left_cancel he).symm) b
  have hfinal : horizontal_convolution input channels width height ker out idx
      = to_uchar (hconvSum input channels width ker i j ch) := by
    unfold horizontal_convolution
    refine iterN_lookupT (fun b => b idx) _ height i out _ hi ?_ ?_
    · exact fun b => hmid b
    intro k b hik hkh
    refine iterN_frame (fun b => b idx) _ width b ?_
    intro j2 b2 hj2
    refine hframe_inner k j2 ?_ b2
    intro he
    exact Nat.ne_of_lt hik ((enc2_inj hj2 hj he).1).symm
  rw [hfinal, hsum, to_uchar_eq_roundClamp]

/-- Witness for C1: a 1×1 single-channel image with the one-tap identity
kernel reproduces its pixel. -/
theorem horizontal_convolution_spec_witness :
    ((1 : ℕ) = 1 ∨ (1 : ℕ) = 3 ∨ (1 : ℕ) = 4) ∧ ((0 : ℕ) < 1) ∧
    horizontal_convolution (fun _ => 42) 1 1 1 ⟨0, fun _ => 1⟩ (fun _ => 0)
        ((0 * 1 + 0) * 1 + 0)
      = roundClamp (∑ o ∈ Finset.Icc (-((0 : ℕ) : ℤ)) ((0 : ℕ) : ℤ),
          (⟨0, fun _ => 1⟩ : Kernel).values (o + ((0 : ℕ) : ℤ)).toNat *
            ((fun _ => (42 : ℕ))
                ((0 * 1 + (iclamp ((0 : ℤ) + o) 0 ((1 : ℤ) - 1)).toNat) * 1 + 0) : ℚ)) :=
  ⟨Or.inl rfl, Nat.one_pos,
    horizontal_convolution_spec (fun _ => 42) (fun _ => 0) 1 1 1 ⟨0, fun _ => 1⟩ 0 0 0
      (Or.inl rfl) Nat.one_pos Nat.one_pos Nat.one_pos⟩

/-!  ## Claim C8: the Gaussian filter guards  -/

/-- Counterexample to C8 as stated: a non-null buffer with `width = 0` is
claimed to be "empty" and rejected with `INVALID_ARGUMENT`, but the code
only null-checks the pointers, so the filter runs (over zero columns) and
returns `SUCCESS`. -/
theorem ipl_gaussian_filter_zero_width_not_rejected :
    (({ format := ImageFormat.PNG, width := 0, height := 1, channels := 1,
        data := some (fun _ => 0) } : NImage).width = 0) ∧
    (ipl_gaussian_filter (fun _ => 1) (fun _ => 0)
        (some { format := ImageFormat.PNG, width := 0, height := 1, channels := 1,
                data := some (fun _ => 0) }) 1).2
      ≠ ImageProcStatus.INVALID_ARGUMENT := by
  constructor
  · rfl
  · intro h
    have hs : (ipl_gaussian_filter (fun _ => 1) (fun _ => 0)
        (some { format := ImageFormat.PNG, width := 0, height := 1, channels := 1,
                data := some (fun _ => 0) }) (1 : ℚ)).2
        = ImageProcStatus.SUCCESS := by
      unfold ipl_gaussian_filter
      norm_num
    rw [hs] at h
    exact ImageProcStatus.noConfusion h

/-- Claim C8 (amended): the filter rejects, without modifying anything, a
null image, null data, or negative sigma; for `0 ≤ sigma ≤ 1e-6` it is a
successful no-op; and a non-null buffer of zero width or zero height is
*not* rejected — the passes run over an empty index range and it returns
`SUCCESS` with the data unchanged. -/
theorem ipl_gaussian_filter_guards (expf : ℚ → ℚ) (tmpInit : Buf) (sigma : ℚ) :
    (ipl_gaussian_filter expf tmpInit none sigma
        = (none, ImageProcStatus.INVALID_ARGUMENT)) ∧
    (∀ img : NImage, img.data = none →
      ipl_gaussian_filter expf tmpInit (some img) sigma
        = (some img, ImageProcStatus.INVALID_ARGUMENT)) ∧
    (∀ img : NImage, sigma < 0 →
      ipl_gaussian_filter expf tmpInit (some img) sigma
        = (some img, ImageProcStatus.INVALID_ARGUMENT)) ∧
    (∀ (img : NImage) (d : Buf), img.data = some d → 0 ≤ sigma →
      sigma ≤ 1 / 1000000 →
      ipl_gaussian_filter expf tmpInit (some img) sigma
        = (some img, ImageProcStatus.SUCCESS)) ∧
    (∀ (img : NImage) (d : Buf), img.data = some d →
      img.width = 0 ∨ img.height = 0 → 0 ≤ sigma →
      ipl_gaussian_filter expf tmpInit (some img) sigma
        = (some img, ImageProcStatus.SUCCESS)) := by
  refine ⟨rfl, ?_, ?_, ?_, ?_⟩
  · intro img hd
    simp [ipl_gaussian_filter, hd]
  · intro img hsig
    rcases himg : img.data with _ | d
    · simp [ipl_gaussian_filter, himg]
    · simp [ipl_gaussian_filter, himg, hsig]
  · intro img d hd hs0 hs6
    simp [ipl_gaussian_filter, hd, not_lt.mpr hs0, hs6]
    intro hcon
    rw [← one_div] at hcon
    exact absurd hcon (not_lt.mpr hs6)
  · intro img d hd hwh hs0
    by_cases h6 : sigma ≤ 1 / 1000000
    · simp [ipl_gaussian_filter, hd, not_lt.mpr hs0, h6]
      intro hcon
      rw [← one_div] at hcon
      exact absurd hcon (not_lt.mpr h6)
    · have hd2 : vertical_convolution
          (horizontal_convolution d img.channels img.width img.height
            (generate_gaussian_kernel expf sigma) tmpInit)
          img.channels img.width img.height
          (generate_gaussian_kernel expf sigma) d = d := by
        rcases hwh with hw | hh
        · rw [hw]
          unfold vertical_convolution
          exact iterN_const _ img.height d (fun _ _ _ => rfl)
        · rw [hh]
          unfold vertical_convolution
          rfl
      simp [ipl_gaussian_filter, hd, not_lt.mpr hs0, h6, hd2]
      obtain ⟨f, w, h, c, dd⟩ := img
      simp only at hd
      rw [hd]
      intro _
      rfl

/-- Witness for C8 (amended): a 1×1 image with `sigma = 0` is a successful
no-op. -/
theorem ipl_gaussian_filter_guards_witness :
    (({ format := ImageFormat.PNG, width := 1, height := 1, channels := 1,
        data := some (fun _ => 7) } : NImage).data = some (fun _ => 7)) ∧
    ((0 : ℚ) ≤ 0) ∧ ((0 : ℚ) ≤ 1 / 1000000) ∧
    ipl_gaussian_filter (fun _ => 1) (fun _ => 0)
        (some { format := ImageFormat.PNG, width := 1, height := 1, channels := 1,
                data := some (fun _ => 7) }) 0
      = (some { format := ImageFormat.PNG, width := 1, height := 1, channels := 1,
                data := some (fun _ => 7) }, ImageProcStatus.SUCCESS) :=
  ⟨rfl, le_refl 0, by norm_num,
    (ipl_gaussian_filter_guards (fun _ => 1) (fun _ => 0) 0).2.2.2.1
      { format := ImageFormat.PNG, width := 1, height := 1, channels := 1,
        data := some (fun _ => 7) }
      (fun _ => 7) rfl (le_refl 0) (by norm_num)⟩

/-!  ## The median filter write structure (claims C6 and C9)  -/

theorem encIdx {width chan : ℕ} (i j c : ℕ) :
    i * (width * chan) + j * chan + c = (i * width + j) * chan + c := by ring_nf

theorem encIdx_inj {width chan i j c i2 j2 c2 : ℕ}
    (hj : j < width) (hj2 : j2 < width) (hc : c < chan) (hc2 : c2 < chan)
    (h : i * (width * chan) + j * chan + c = i2 * (width * chan) + j2 * chan + c2) :
    i = i2 ∧ j = j2 ∧ c = c2 := by
  rw [encIdx, encIdx] at h
  obtain ⟨h1, h2⟩ := enc2_inj hc hc2 h
  obtain ⟨h3, h4⟩ := enc2_inj hj hj2 h1
  exact ⟨h3, h4, h2⟩

theorem encIdx_lt {width chan height : ℕ} {i j c : ℕ}
    (hi : i < height) (hj : j < width) (hc : c < chan) :
    i * (width * chan) + j * chan + c < height * (width * chan) := by
  have h1 : j * chan + c < width * chan := by
    calc j * chan + c < j * chan + chan := by omega
    _ = (j + 1) * chan := by ring
    _ ≤ width * chan := Nat.mul_le_mul_right chan hj
  calc i * (width * chan) + j * chan + c
      < i * (width * chan) + width * chan := by omega
  _ = (i + 1) * (width * chan) := by ring
  _ ≤ height * (width * chan) := Nat.mul_le_mul_right (width * chan) hi

theorem medianLoop_hist (padded : Buf) (wc wc_pad chan c win_size win_area i : ℕ)
    (src : Buf) (n : ℕ) :
    (iterN (medianJBody padded wc wc_pad chan c win_size win_area i) n
        (src, (hist_set padded i wc_pad 0 chan c win_size).1,
          (hist_set padded i wc_pad 0 chan c win_size).2.2)).2
      = histAfter padded i wc_pad chan c win_size n := by
  induction n with
  | zero => rfl
  | succ m ih =>
    calc (iterN (medianJBody padded wc wc_pad chan c win_size win_area i) (m + 1)
        (src, (hist_set padded i wc_pad 0 chan c win_size).1,
          (hist_set padded i wc_pad 0 chan c win_size).2.2)).2
        = hist_move padded i wc_pad chan c win_size
            (iterN (medianJBody padded wc wc_pad chan c win_size win_area i) m
              (src, (hist_set padded i wc_pad 0 chan c win_size).1,
                (hist_set padded i wc_pad 0 chan c win_size).2.2)).2.1
            (iterN (medianJBody padded wc wc_pad chan c win_size win_area i) m
              (src, (hist_set padded i wc_pad 0 chan c win_size).1,
                (hist_set padded i wc_pad 0 chan c win_size).2.2)).2.2 := rfl
    _ = hist_move padded i wc_pad chan c win_size
            (histAfter padded i wc_pad chan c win_size m).1
            (histAfter padded i wc_pad chan c win_size m).2 := by rw [ih]
    _ = histAfter padded i wc_pad chan c win_size (m + 1) := rfl

theorem medianRow_lookup (padded : Buf) (width chan c win_size win_area wc_pad i j : ℕ)
    (src : Buf) (hc : c < chan) (hj : j < width) :
    medianRow padded width (width * chan) wc_pad chan c win_size win_area i src
        (i * (width * chan) + j * chan + c)
      = get_median (histAfter padded i wc_pad chan c win_size j).1 win_area := by
  unfold medianRow
  rcases Nat.lt_or_ge j (width - 1) with hjlt | hjge
  · have hne : i * (width * chan) + j * chan + c
        ≠ i * (width * chan) + (width - 1) * chan + c := by
      intro he
      have h1 := encIdx_inj hj (by omega : width - 1 < width) hc hc he
      omega
    rw [bufSet_other _ _ hne]
    refine iterN_lookup
      (fun st : Buf × Hist × ℕ => st.1 (i * (width * chan) + j * chan + c))
      (fun k st => st.2 = histAfter padded i wc_pad chan c win_size k)
      _ (width - 1) j _ _ hjlt ?_ ?_ ?_ ?_
    · rfl
    · intro k st _ hI
      show (medianJBody padded (width * chan) wc_pad chan c win_size win_area i k st).2
        = histAfter padded i wc_pad chan c win_size (k + 1)
      unfold medianJBody histAfter
      rw [← hI]
    · intro st hI
      show bufSet st.1 (i * (width * chan) + j * chan + c)
          (get_median st.2.1 win_area) (i * (width * chan) + j * chan + c) = _
      rw [bufSet_same, hI]
    · intro k st hjk hkw
      show (medianJBody padded (width * chan) wc_pad chan c win_size win_area i k st).1
          (i * (width * chan) + j * chan + c)
        = st.1 (i * (width * chan) + j * chan + c)
      unfold medianJBody
      refine bufSet_other _ _ ?_
      intro he
      have h1 := encIdx_inj hj (by omega : k < width) hc hc he
      omega
  · have hje : j = width - 1 := by omega
    subst hje
    rw [bufSet_same, medianLoop_hist]

theorem medianRow_frame (padded : Buf) (width chan c c2 win_size win_area wc_pad i i2 j : ℕ)
    (src : Buf) (hc : c < chan) (hc2 : c2 < chan) (hj : j < width)
    (hne : i2 ≠ i ∨ c2 ≠ c) :
    medianRow padded width (width * chan) wc_pad chan c2 win_size win_area i2 src
        (i * (width * chan) + j * chan + c)
      = src (i * (width * chan) + j * chan + c) := by
  unfold medianRow
  rw [bufSet_other]
  · refine iterN_frame
      (fun st : Buf × Hist × ℕ => st.1 (i * (width * chan) + j * chan + c))
      _ (width - 1) _ ?_
    intro k st hk
    show (medianJBody padded (width * chan) wc_pad chan c2 win_size win_area i2 k st).1
        (i * (width * chan) + j * chan + c)
      = st.1 (i * (width * chan) + j * chan + c)
    unfold medianJBody
    refine bufSet_other _ _ ?_
    intro he
    obtain ⟨he1, he2, he3⟩ := encIdx_inj hj (by omega : k < width) hc hc2 he
    rcases hne with h | h
    · exact h he1.symm
    · exact h he3.symm
  · intro he
    obtain ⟨he1, he2, he3⟩ :=
      encIdx_inj hj (by omega : width - 1 < width) hc hc2 he
    rcases hne with h | h
    · exact h he1.symm
    · exact h he3.symm

/-- The per-position result of the median filter: every pixel `(i, j)` of
every channel `c` of the output holds the median of the row-`i` histogram
after `j` slides. -/
theorem ipl_median_filter_lookup (padInit : Buf) (image : Image) (radius : ℕ)
    (c i j : ℕ) (hc : c < image.channels) (hi : i < image.height)
    (hj : j < image.width) :
    (ipl_median_filter padInit image radius).1.data
        (i * (image.width * image.channels) + j * image.channels + c)
      = get_median
          (histAfter
            (makePadded image.data image.width image.height image.channels radius padInit)
            i ((image.width + radius * 2) * image.channels) image.channels c
            (radius * 2 + 1) j).1
          ((radius * 2 + 1) * (radius * 2 + 1)) := by
  show iterN (fun c2 src =>
      iterN (fun i2 src =>
          medianRow
            (makePadded image.data image.width image.height image.channels radius padInit)
            image.width (image.width * image.channels)
            ((image.width + radius * 2) * image.channels)
            image.channels c2 (radius * 2 + 1)
            ((radius * 2 + 1) * (radius * 2 + 1)) i2 src)
        image.height src)
    image.channels image.data
    (i * (image.width * image.channels) + j * image.channels + c) = _
  refine iterN_lookupT
    (fun b : Buf => b (i * (image.width * image.channels) + j * image.channels + c))
    _ image.channels c image.data _ hc ?_ ?_
  · intro b
    refine iterN_lookupT
      (fun b : Buf => b (i * (image.width * image.channels) + j * image.channels + c))
      _ image.height i b _ hi ?_ ?_
    · intro b2
      exact medianRow_lookup _ image.width image.channels c (radius * 2 + 1)
        ((radius * 2 + 1) * (radius * 2 + 1))
        ((image.width + radius * 2) * image.channels) i j b2 hc hj
    · intro k b2 hik _
      exact medianRow_frame _ image.width image.channels c c (radius * 2 + 1)
        ((radius * 2 + 1) * (radius * 2 + 1))
        ((image.width + radius * 2) * image.channels) i k j b2 hc hc hj
        (Or.inl (Nat.ne_of_gt hik))
  · intro k b hck hkc
    refine iterN_frame
      (fun b : Buf => b (i * (image.width * image.channels) + j * image.channels + c))
      _ image.height b ?_
    intro i2 b2 _
    exact medianRow_frame _ image.width image.channels c k (radius * 2 + 1)
      ((radius * 2 + 1) * (radius * 2 + 1))
      ((image.width + radius * 2) * image.channels) i i2 j b2 hc hkc hj
      (Or.inr (Nat.ne_of_gt hck))

/-!  ## Claim C9: the last median column  -/

/-- Counterexample to C9 as stated: on the 2×2 single-channel image with
bytes `[0, 255; 0, 0]` at radius 1, the last column of row 0 (flat index 1)
is overwritten with the window median 0, so it does not retain its prior
content 255 — the inner loop bound `width-1` does not make the last column
unwritten. -/
theorem ipl_median_filter_last_column_changes :
    (ipl_median_filter (fun _ => 0)
        ⟨ImageFormat.PNG, 2, 2, 1, fun idx => if idx = 1 then 255 else 0⟩ 1).1.data 1
      = 0 ∧
    (⟨ImageFormat.PNG, 2, 2, 1, fun idx => if idx = 1 then 255 else 0⟩ : Image).data 1
      = 255 :=
  ⟨by decide, by decide⟩

/-- Claim C9 (amended): the inner loop covers only columns `0..width-2`,
but a separate assignment after the loop writes column `width-1` from the
final histogram state, so every column `j < width` of every row — the last
included — is assigned the median of its window histogram. -/
theorem ipl_median_filter_every_column_assigned (padInit : Buf) (image : Image)
    (radius c i j : ℕ) (hc : c < image.channels) (hi : i < image.height)
    (hj : j < image.width) :
    (ipl_median_filter padInit image radius).1.data
        (i * (image.width * image.channels) + j * image.channels + c)
      = get_median
          (histAfter
            (makePadded image.data image.width image.height image.channels radius padInit)
            i ((image.width + radius * 2) * image.channels) image.channels c
            (radius * 2 + 1) j).1
          ((radius * 2 + 1) * (radius * 2 + 1)) :=
  ipl_median_filter_lookup padInit image radius c i j hc hi hj

/-- Witness for amended C9: the last column (`j = 1`, `width = 2`) of the
counterexample image is assigned its window median. -/
theorem ipl_median_filter_every_column_assigned_witness :
    ((0 : ℕ) < 1) ∧ ((0 : ℕ) < 2) ∧ ((1 : ℕ) < 2) ∧
    (ipl_median_filter (fun _ => 0)
        ⟨ImageFormat.PNG, 2, 2, 1, fun idx => if idx = 1 then 255 else 0⟩ 1).1.data
        (0 * (2 * 1) + 1 * 1 + 0)
      = get_median
          (histAfter
            (makePadded (fun idx => if idx = 1 then 255 else 0) 2 2 1 1 (fun _ => 0))
            0 ((2 + 1 * 2) * 1) 1 0 (1 * 2 + 1) 1).1
          ((1 * 2 + 1) * (1 * 2 + 1)) :=
  ⟨Nat.one_pos, by omega, by omega,
    ipl_median_filter_every_column_assigned (fun _ => 0)
      ⟨ImageFormat.PNG, 2, 2, 1, fun idx => if idx = 1 then 255 else 0⟩ 1 0 0 1
      Nat.one_pos (by decide) (by decide)⟩

/-!  ## Claim C6: median filter on constant images, radius 0  -/

theorem makePadded_lookup (source : Buf) (width height chan radius : ℕ) (padInit : Buf)
    (c i j : ℕ) (hc : c < chan) (hi : i < height + radius * 2)
    (hj : j < width + radius * 2) :
    makePadded source width height chan radius padInit
        (i * ((width + radius * 2) * chan) + j * chan + c)
      = source ((iclamp ((i : ℤ) - (radius : ℤ)) 0 ((height : ℤ) - 1)).toNat
          * (width * chan)
        + (iclamp ((j : ℤ) - (radius : ℤ)) 0 ((width : ℤ) - 1)).toNat * chan + c) := by
  unfold makePadded
  refine iterN_lookupT
    (fun b : Buf => b (i * ((width + radius * 2) * chan) + j * chan + c))
    _ chan c padInit _ hc ?_ ?_
  · intro b
    refine iterN_lookupT
      (fun b : Buf => b (i * ((width + radius * 2) * chan) + j * chan + c))
      _ (height + radius * 2) i b _ hi ?_ ?_
    · intro b2
      refine iterN_bufSet_lookup (width + radius * 2) j b2
        (fun j2 => i * ((width + radius * 2) * chan) + j2 * chan + c) _ hj ?_
      intro k hjk hkw he
      obtain ⟨_, h2, _⟩ := encIdx_inj hj hkw hc hc he
      omega
    · intro k b2 hik hkH
      refine iterN_frame
        (fun b : Buf => b (i * ((width + radius * 2) * chan) + j * chan + c))
        _ (width + radius * 2) b2 ?_
      intro j2 b3 hj2
      refine bufSet_other _ _ ?_
      intro he
      obtain ⟨h1, _, _⟩ := encIdx_inj hj hj2 hc hc he
      omega
  · intro k b hck hkc
    refine iterN_frame
      (fun b : Buf => b (i * ((width + radius * 2) * chan) + j * chan + c))
      _ (height + radius * 2) b ?_
    intro i2 b2 _
    refine iterN_frame
      (fun b : Buf => b (i * ((width + radius * 2) * chan) + j * chan + c))
      _ (width + radius * 2) b2 ?_
    intro j2 b3 hj2
    refine bufSet_other _ _ ?_
    intro he
    obtain ⟨_, _, h3⟩ := encIdx_inj hj hj2 hc hkc he
    omega

theorem incr_const_loop (g : ℕ → ℕ) (v n : ℕ) (hg : ∀ k, k < n → g k = v) (h : Hist) :
    iterN (fun k h => histIncr h (g k)) n h
      = fun u => if u = v then h u + (n : ℤ) else h u := by
  induction n with
  | zero =>
    funext u
    by_cases hu : u = v <;> simp [iterN, hu]
  | succ m ih =>
    have hgm := hg m (Nat.lt_succ_self m)
    show histIncr (iterN (fun k h => histIncr h (g k)) m h) (g m) = _
    rw [ih (fun k hk => hg k (Nat.lt_succ_of_lt hk)), hgm]
    funext u
    by_cases hu : u = v <;> simp [histIncr, hu] <;> push_cast <;> ring

theorem decr_const_loop (g : ℕ → ℕ) (v n : ℕ) (hg : ∀ k, k < n → g k = v) (h : Hist) :
    iterN (fun k h => histDecr h (g k)) n h
      = fun u => if u = v then h u - (n : ℤ) else h u := by
  induction n with
  | zero =>
    funext u
    by_cases hu : u = v <;> simp [iterN, hu]
  | succ m ih =>
    have hgm := hg m (Nat.lt_succ_self m)
    show histDecr (iterN (fun k h => histDecr h (g k)) m h) (g m) = _
    rw [ih (fun k hk => hg k (Nat.lt_succ_of_lt hk)), hgm]
    funext u
    by_cases hu : u = v <;> simp [histDecr, hu] <;> push_cast <;> ring

theorem hist_set_const (padded : Buf) (y ldp x chan c win v : ℕ)
    (hread : ∀ iw jw, iw < win → jw < win →
      padded ((y + iw) * ldp + (x + jw) * chan + c) = v) :
    (hist_set padded y ldp x chan c win).1
      = fun u => if u = v then ((win * win : ℕ) : ℤ) else 0 := by
  show iterN (fun iw h =>
      iterN (fun jw h =>
          histIncr h (padded ((y + iw) * ldp + (x + jw) * chan + c))) win h)
    win (fun _ => 0) = _
  have key := iterN_inv
    (fun k h' => h' = fun u => if u = v then ((k * win : ℕ) : ℤ) else 0)
    (fun iw h =>
      iterN (fun jw h =>
          histIncr h (padded ((y + iw) * ldp + (x + jw) * chan + c))) win h)
    win (fun _ => 0)
    (by funext u; by_cases hu : u = v <;> simp [hu])
    (fun k b hk hI => by
      dsimp only at hI ⊢
      rw [incr_const_loop (fun jw => padded ((y + k) * ldp + (x + jw) * chan + c)) v win
        (fun jw hjw => hread k jw hk hjw) b, hI]
      funext u
      by_cases hu : u = v <;> simp [hu]
      push_cast
      ring)
  rw [key]

theorem hist_move_const (padded : Buf) (y ldp chan c win v : ℕ) (hx : ℕ)
    (hread1 : ∀ iw, iw < win → padded ((y + iw) * ldp + hx * chan + c) = v)
    (hread2 : ∀ iw, iw < win →
      padded ((y + iw) * ldp + (hx + 1 + win - 1) * chan + c) = v)
    (h : Hist) :
    (hist_move padded y ldp chan c win h hx).1 = h ∧
    (hist_move padded y ldp chan c win h hx).2 = hx + 1 := by
  constructor
  · show iterN (fun iw h =>
        histIncr h (padded ((y + iw) * ldp + (hx + 1 + win - 1) * chan + c))) win
      (iterN (fun iw h =>
          histDecr h (padded ((y + iw) * ldp + hx * chan + c))) win h) = h
    rw [decr_const_loop (fun iw => padded ((y + iw) * ldp + hx * chan + c)) v win
        (fun iw hiw => hread1 iw hiw) h,
      incr_const_loop (fun iw => padded ((y + iw) * ldp + (hx + 1 + win - 1) * chan + c))
        v win (fun iw hiw => hread2 iw hiw)]
    funext u
    by_cases hu : u = v <;> simp [hu]
  · rfl

theorem histAfter_const (padded : Buf) (width height chan radius c i v : ℕ)
    (hc : c < chan) (hi : i < height) (hwidth : 1 ≤ width)
    (hpad : ∀ i2 j2, i2 < height + radius * 2 → j2 < width + radius * 2 →
      padded (i2 * ((width + radius * 2) * chan) + j2 * chan + c) = v) :
    ∀ j, j ≤ width - 1 →
      (histAfter padded i ((width + radius * 2) * chan) chan c (radius * 2 + 1) j).1
          = (fun u => if u = v then (((radius * 2 + 1) * (radius * 2 + 1) : ℕ) : ℤ) else 0) ∧
      (histAfter padded i ((width + radius * 2) * chan) chan c (radius * 2 + 1) j).2 = j := by
  intro j
  induction j with
  | zero =>
    intro _
    constructor
    · show (hist_set padded i ((width + radius * 2) * chan) 0 chan c (radius * 2 + 1)).1 = _
      exact hist_set_const padded i ((width + radius * 2) * chan) 0 chan c (radius * 2 + 1) v
        (fun iw jw hiw hjw => hpad (i + iw) (0 + jw) (by omega) (by omega))
    · rfl
  | succ m ih =>
    intro hm
    have ihm := ih (by omega)
    have hmv := hist_move_const padded i ((width + radius * 2) * chan) chan c
      (radius * 2 + 1) v m
      (fun iw hiw => hpad (i + iw) m (by omega) (by omega))
      (fun iw hiw => hpad (i + iw) (m + 1 + (radius * 2 + 1) - 1) (by omega) (by omega))
      (histAfter padded i ((width + radius * 2) * chan) chan c (radius * 2 + 1) m).1
    constructor
    · show (hist_move padded i ((width + radius * 2) * chan) chan c (radius * 2 + 1)
          (histAfter padded i ((width + radius * 2) * chan) chan c (radius * 2 + 1) m).1
          (histAfter padded i ((width + radius * 2) * chan) chan c (radius * 2 + 1) m).2).1
        = _
      rw [ihm.2, hmv.1, ihm.1]
    · show (hist_move padded i ((width + radius * 2) * chan) chan c (radius * 2 + 1)
          (histAfter padded i ((width + radius * 2) * chan) chan c (radius * 2 + 1) m).1
          (histAfter padded i ((width + radius * 2) * chan) chan c (radius * 2 + 1) m).2).2
        = m + 1
      rw [ihm.2, hmv.2]

theorem presumH_single (v A : ℕ) (m : ℕ) :
    presumH (fun u => if u = v then (A : ℤ) else 0) m
      = if v < m then (A : ℤ) else 0 := by
  unfold presumH
  rw [Finset.sum_ite_eq' (Finset.range m) v (fun _ => (A : ℤ))]
  simp [Finset.mem_range]

theorem get_median_const (v A : ℕ) (hv : v < 256) (hA : 1 ≤ A) :
    get_median (fun u => if u = v then (A : ℤ) else 0) A = v := by
  have htot : presumH (fun u => if u = v then (A : ℤ) else 0) 256
      > ((A : ℕ) : ℤ) / 2 := by
    rw [presumH_single]
    simp only [hv, if_pos]
    omega
  have h0 : presumH (fun u => if u = v then (A : ℤ) else 0) 0 = 0 := by
    simp [presumH]
  have spec := medianScan_spec (fun u => if u = v then (A : ℤ) else 0) (((A : ℕ) : ℤ) / 2)
    256 0 (by omega) htot (fun k hk => absurd hk (Nat.not_lt_zero k))
  rw [h0] at spec
  obtain ⟨hlt, hgt, hmin⟩ := spec
  unfold get_median
  set m := medianScan (fun u => if u = v then (A : ℤ) else 0) (((A : ℕ) : ℤ) / 2) 256 0 0
    with hm
  rw [presumH_single] at hgt
  have hvm : v ≤ m := by
    by_contra hcon
    push_neg at hcon
    rw [if_neg (by omega)] at hgt
    omega
  have hmv : m ≤ v := by
    by_contra hcon
    push_neg at hcon
    have := hmin v hcon
    rw [presumH_single, if_pos (by omega)] at this
    omega
  omega

theorem histAfter_single (padded : Buf) (width chan c i : ℕ) :
    ∀ j,
      (histAfter padded i (width * chan) chan c 1 j).1
          = (fun u => if u = padded (i * (width * chan) + j * chan + c) then 1 else 0) ∧
      (histAfter padded i (width * chan) chan c 1 j).2 = j := by
  intro j
  induction j with
  | zero =>
    constructor
    · show (hist_set padded i (width * chan) 0 chan c 1).1 = _
      show iterN (fun iw h =>
          iterN (fun jw h =>
              histIncr h (padded ((i + iw) * (width * chan) + (0 + jw) * chan + c))) 1 h)
        1 (fun _ => 0) = _
      show histIncr (fun _ => 0)
          (padded ((i + 0) * (width * chan) + (0 + 0) * chan + c)) = _
      funext u
      simp [histIncr]
    · rfl
  | succ m ih =>
    constructor
    · show (hist_move padded i (width * chan) chan c 1
          (histAfter padded i (width * chan) chan c 1 m).1
          (histAfter padded i (width * chan) chan c 1 m).2).1
        = _
      rw [ih.2]
      show iterN (fun iw h =>
          histIncr h (padded ((i + iw) * (width * chan) + (m + 1 + 1 - 1) * chan + c))) 1
        (iterN (fun iw h =>
            histDecr h (padded ((i + iw) * (width * chan) + m * chan + c))) 1
          (histAfter padded i (width * chan) chan c 1 m).1) = _
      show histIncr
          (histDecr (histAfter padded i (width * chan) chan c 1 m).1
            (padded ((i + 0) * (width * chan) + m * chan + c)))
          (padded ((i + 0) * (width * chan) + (m + 1 + 1 - 1) * chan + c)) = _
      rw [ih.1]
      funext u
      by_cases h1 : u = padded ((i + 0) * (width * chan) + m * chan + c) <;>
        by_cases h2 : u = padded ((i + 0) * (width * chan) + (m + 1 + 1 - 1) * chan + c) <;>
        simp [histIncr, histDecr, h1, h2] <;>
        simp_all <;> omega
    · show (hist_move padded i (width * chan) chan c 1
          (histAfter padded i (width * chan) chan c 1 m).1
          (histAfter padded i (width * chan) chan c 1 m).2).2
        = m + 1
      rw [ih.2]
      rfl

/-- Claim C6: on an image holding one constant byte `v` in every channel,
`ipl_median_filter` returns `SUCCESS` and leaves every (valid) byte equal
to `v`, for every radius; and at `radius = 0` the filter is a no-op copy on
every byte image. -/
theorem ipl_median_filter_constant_and_radius_zero :
    (∀ (image : Image) (padInit : Buf) (radius v : ℕ), v < 256 →
      (∀ idx, idx < image.height * (image.width * image.channels) →
        image.data idx = v) →
      (ipl_median_filter padInit image radius).2 = ImageProcStatus.SUCCESS ∧
      ∀ c i j, c < image.channels → i < image.height → j < image.width →
        (ipl_median_filter padInit image radius).1.data
            (i * (image.width * image.channels) + j * image.channels + c) = v) ∧
    (∀ (image : Image) (padInit : Buf),
      (∀ idx, image.data idx < 256) →
      ∀ c i j, c < image.channels → i < image.height → j < image.width →
        (ipl_median_filter padInit image 0).1.data
            (i * (image.width * image.channels) + j * image.channels + c)
          = image.data (i * (image.width * image.channels) + j * image.channels + c)) := by
  constructor
  · intro image padInit radius v hv hconst
    refine ⟨rfl, ?_⟩
    intro c i j hc hi hj
    rw [ipl_median_filter_lookup padInit image radius c i j hc hi hj]
    have hpad : ∀ i2 j2, i2 < image.height + radius * 2 →
        j2 < image.width + radius * 2 →
        makePadded image.data image.width image.height image.channels radius padInit
          (i2 * ((image.width + radius * 2) * image.channels) + j2 * image.channels + c)
          = v := by
      intro i2 j2 hi2 hj2
      rw [makePadded_lookup image.data image.width image.height image.channels radius
        padInit c i2 j2 hc hi2 hj2]
      apply hconst
      have h1 : (iclamp ((i2 : ℤ) - (radius : ℤ)) 0 ((image.height : ℤ) - 1)).toNat
          < image.height := iclamp_toNat_lt (by omega)
      have h2 : (iclamp ((j2 : ℤ) - (radius : ℤ)) 0 ((image.width : ℤ) - 1)).toNat
          < image.width := iclamp_toNat_lt (by omega)
      exact encIdx_lt h1 h2 hc
    have hhist := histAfter_const
      (makePadded image.data image.width image.height image.channels radius padInit)
      image.width image.height image.channels radius c i v hc hi (by omega) hpad
      j (by omega)
    rw [hhist.1]
    exact get_median_const v ((radius * 2 + 1) * (radius * 2 + 1)) hv
      (Nat.one_le_iff_ne_zero.mpr (by positivity))
  · intro image padInit hbytes c i j hc hi hj
    rw [ipl_median_filter_lookup padInit image 0 c i j hc hi hj]
    have hwzero : image.width + 0 * 2 = image.width := by omega
    have hsingle := histAfter_single
      (makePadded image.data image.width image.height image.channels 0 padInit)
      image.width image.channels c i j
    have hclamp : ∀ (a n : ℕ), a < n →
        (iclamp ((a : ℤ) - ((0 : ℕ) : ℤ)) 0 ((n : ℤ) - 1)).toNat = a := by
      intro a n han
      unfold iclamp
      split_ifs <;> omega
    have hpadval : makePadded image.data image.width image.height image.channels 0 padInit
        (i * (image.width * image.channels) + j * image.channels + c)
        = image.data (i * (image.width * image.channels) + j * image.channels + c) := by
      have h0 := makePadded_lookup image.data image.width image.height image.channels 0
        padInit c i j hc (by omega) (by omega)
      rw [hclamp i image.height hi, hclamp j image.width hj, hwzero] at h0
      exact h0
    have hmain : get_median
        (histAfter (makePadded image.data image.width image.height image.channels 0 padInit)
          i ((image.width + 0 * 2) * image.channels) image.channels c (0 * 2 + 1) j).1
        ((0 * 2 + 1) * (0 * 2 + 1))
        = image.data (i * (image.width * image.channels) + j * image.channels + c) := by
      have hrw : ((image.width + 0 * 2) * image.channels) = image.width * image.channels := by
        rw [hwzero]
      rw [show (0 * 2 + 1 : ℕ) = 1 from rfl, show ((0 * 2 + 1) * (0 * 2 + 1) : ℕ) = 1 from rfl,
        hrw, hsingle.1]
      have hlt : makePadded image.data image.width image.height image.channels 0 padInit
          (i * (image.width * image.channels) + j * image.channels + c) < 256 := by
        rw [hpadval]; exact hbytes _
      have := get_median_const
        (makePadded image.data image.width image.height image.channels 0 padInit
          (i * (image.width * image.channels) + j * image.channels + c)) 1 hlt (le_refl 1)
      simp only [Nat.cast_one] at this
      rw [this, hpadval]
    exact hmain

/-- Witness for C6: the constant-5 1×1 image at radius 1 stays 5 with
`SUCCESS`. -/
theorem ipl_median_filter_constant_and_radius_zero_witness :
    ((5 : ℕ) < 256) ∧
    (∀ idx, idx < (1 : ℕ) * (1 * 1) → (fun _ => 5 : Buf) idx = 5) ∧
    ((ipl_median_filter (fun _ => 0) ⟨ImageFormat.PNG, 1, 1, 1, fun _ => 5⟩ 1).2
        = ImageProcStatus.SUCCESS ∧
     ∀ c i j, c < (1 : ℕ) → i < (1 : ℕ) → j < (1 : ℕ) →
       (ipl_median_filter (fun _ => 0) ⟨ImageFormat.PNG, 1, 1, 1, fun _ => 5⟩ 1).1.data
           (i * (1 * 1) + j * 1 + c) = 5) :=
  ⟨by omega, fun _ _ => rfl,
    (ipl_median_filter_constant_and_radius_zero).1
      ⟨ImageFormat.PNG, 1, 1, 1, fun _ => 5⟩ (fun _ => 0) 1 5 (by omega)
      (fun _ _ => rfl)⟩

/-!  ## Claim C5: the Sobel row lag and write range  -/

theorem qset2_same (f : ℕ → ℕ → ℚ) (a b : ℕ) (v : ℚ) : qset2 f a b v a b = v := by
  simp [qset2]

theorem qset2_other (f : ℕ → ℕ → ℚ) {a b x y : ℕ} (v : ℚ)
    (h : ¬(x = a ∧ y = b)) : qset2 f a b v x y = f x y := by
  simp only [qset2]
  rw [if_neg h]

theorem iterN_sum_congr (F G : ℕ → ℚ) (n : ℕ)
    (h : ∀ k, k < n → F k = G k) :
    iterN (fun k s => s + F k) n 0 = iterN (fun k s => s + G k) n 0 := by
  induction n with
  | zero => rfl
  | succ m ih =>
    show iterN (fun k s => s + F k) m 0 + F m = iterN (fun k s => s + G k) m 0 + G m
    rw [ih (fun k hk => h k (Nat.lt_succ_of_lt hk)), h m (Nat.lt_succ_self m)]

theorem sobelGy_congr (f g : ℕ → ℚ) (width j : ℕ) (hw : 1 ≤ width)
    (h : ∀ cc, cc < width → f cc = g cc) :
    sobelGy f width j = sobelGy g width j := by
  unfold sobelGy
  exact iterN_sum_congr
    (fun k => f (iclamp ((j : ℤ) + ((k : ℤ) - 1)) 0 ((width : ℤ) - 1)).toNat * smoothKer k)
    (fun k => g (iclamp ((j : ℤ) + ((k : ℤ) - 1)) 0 ((width : ℤ) - 1)).toNat * smoothKer k)
    3 (fun k _ => by dsimp only; rw [h _ (iclamp_toNat_lt hw)])

theorem sobelBody_preserves (fsqrt : ℚ → ℚ) (input : Buf) (width height : ℕ)
    (out0 : Buf) (i : ℕ) (st : SobelState)
    (hI : SobelInv fsqrt input width height out0 i st) :
    SobelInv fsqrt input width height out0 (i + 1)
      (sobelBody fsqrt input width height i st) := by
  obtain ⟨hbuf, hout⟩ := hI
  have hdx1 : ∀ i2 j2, i2 < i + 1 → i + 1 ≤ i2 + 3 → j2 < width →
      (iterN (fun j d => qset2 d (i % 3) j (derivX input width i j)) width st.dx)
          (i2 % 3) j2
        = derivX input width i2 j2 := by
    intro i2 j2 hi2 hi2b hj2
    rcases Nat.lt_succ_iff_lt_or_eq.mp hi2 with hlt | heq
    · have hmod : i2 % 3 ≠ i % 3 := by omega
      have hfr := iterN_frame (fun d : ℕ → ℕ → ℚ => d (i2 % 3) j2)
        (fun j d => qset2 d (i % 3) j (derivX input width i j)) width st.dx
        (fun k d _ => qset2_other d _ (fun hand => hmod hand.1))
      exact hfr.trans (hbuf i2 j2 hlt (by omega) hj2).1
    · subst heq
      refine iterN_lookupT (fun d : ℕ → ℕ → ℚ => d (i2 % 3) j2) _ width j2 st.dx _ hj2 ?_ ?_
      · intro d
        exact qset2_same d _ _ _
      · intro k d hk _
        exact qset2_other d _ (fun hand => Nat.ne_of_lt hk hand.2)
  have hdy1 : ∀ i2 j2, i2 < i + 1 → i + 1 ≤ i2 + 3 → j2 < width →
      (iterN (fun j d => qset2 d (i % 3) j (derivY input width height i j)) width st.dy)
          (i2 % 3) j2
        = derivY input width height i2 j2 := by
    intro i2 j2 hi2 hi2b hj2
    rcases Nat.lt_succ_iff_lt_or_eq.mp hi2 with hlt | heq
    · have hmod : i2 % 3 ≠ i % 3 := by omega
      have hfr := iterN_frame (fun d : ℕ → ℕ → ℚ => d (i2 % 3) j2)
        (fun j d => qset2 d (i % 3) j (derivY input width height i j)) width st.dy
        (fun k d _ => qset2_other d _ (fun hand => hmod hand.1))
      exact hfr.trans (hbuf i2 j2 hlt (by omega) hj2).2
    · subst heq
      refine iterN_lookupT (fun d : ℕ → ℕ → ℚ => d (i2 % 3) j2) _ width j2 st.dy _ hj2 ?_ ?_
      · intro d
        exact qset2_same d _ _ _
      · intro k d hk _
        exact qset2_other d _ (fun hand => Nat.ne_of_lt hk hand.2)
  simp only [sobelBody]
  split_ifs with hcase
  · refine ⟨fun i2 j2 h1 h2 h3 => ⟨hdx1 i2 j2 h1 h2 h3, hdy1 i2 j2 h1 h2 h3⟩, ?_⟩
    intro r j2 hj2
    show st.out (r * width + j2) = _
    rw [hout r j2 hj2]
    have c1 : ¬(1 ≤ r ∧ r + 2 ≤ i) := by omega
    have c2 : ¬(1 ≤ r ∧ r + 2 ≤ i + 1) := by omega
    rw [if_neg c1, if_neg c2]
  · refine ⟨fun i2 j2 h1 h2 h3 => ⟨hdx1 i2 j2 h1 h2 h3, hdy1 i2 j2 h1 h2 h3⟩, ?_⟩
    intro r j2 hj2
    by_cases hr : r = i - 1
    · subst hr
      have hcnd : 1 ≤ i - 1 ∧ (i - 1) + 2 ≤ i + 1 := by omega
      rw [if_pos hcnd]
      show (iterN _ width st.out) ((i - 1) * width + j2) = _
      refine iterN_lookupT (fun o : Buf => o ((i - 1) * width + j2)) _ width j2 st.out _
        hj2 ?_ ?_
      · intro o
        show bufSet o ((i - 1) * width + j2) _ ((i - 1) * width + j2) = _
        rw [bufSet_same]
        have e1 : i - 1 - 1 = i - 2 := by omega
        have e2 : i - 1 + 1 = i := by omega
        have hx0 := hdx1 (i - 2) j2 (by omega) (by omega) hj2
        have hx1 := hdx1 (i - 1) j2 (by omega) (by omega) hj2
        have hx2 := hdx1 i j2 (by omega) (by omega) hj2
        have hgy : sobelGy
            ((iterN (fun j d => qset2 d (i % 3) j (derivY input width height i j))
              width st.dy) ((i - 1) % 3)) width j2
            = sobelGy (derivY input width height (i - 1)) width j2 :=
          sobelGy_congr _ _ width j2 (by omega)
            (fun cc hcc => hdy1 (i - 1) cc (by omega) (by omega) hcc)
        simp only [sobelValue, e1, e2] at *
        rw [hx0, hx1, hx2, hgy]
      · intro k o hk _
        refine bufSet_other _ _ ?_
        intro he
        exact Nat.ne_of_lt hk (Nat.add_left_cancel he)
    · show (iterN _ width st.out) (r * width + j2) = _
      refine Eq.trans
        (iterN_frame (fun o : Buf => o (r * width + j2)) _ width st.out ?_) ?_
      · intro k o hk
        refine bufSet_other _ _ ?_
        intro he
        obtain ⟨he1, he2⟩ := enc2_inj hj2 hk he
        exact hr he1
      · rw [hout r j2 hj2]
        by_cases hcnd : 1 ≤ r ∧ r + 2 ≤ i + 1
        · have hcnd2 : 1 ≤ r ∧ r + 2 ≤ i := by omega
          rw [if_pos hcnd, if_pos hcnd2]
        · have hcnd2 : ¬(1 ≤ r ∧ r + 2 ≤ i) := by omega
          rw [if_neg hcnd, if_neg hcnd2]

theorem compute_sobel_lookup (fsqrt : ℚ → ℚ) (input : Buf) (width height : ℕ)
    (out0 : Buf) (dx0 dy0 : ℕ → ℕ → ℚ) (r j : ℕ) (hj : j < width) :
    compute_sobel_magnitude fsqrt input width height out0 dx0 dy0 (r * width + j)
      = if 1 ≤ r ∧ r + 2 ≤ height then sobelValue fsqrt input width height r j
        else out0 (r * width + j) := by
  have hinv := iterN_inv (SobelInv fsqrt input width height out0)
    (sobelBody fsqrt input width height) height
    { dx := dx0, dy := dy0, out := out0 }
    ⟨fun i2 j2 h _ _ => absurd h (Nat.not_lt_zero i2),
     fun r2 j2 hj2 => by
      rw [if_neg]
      rintro ⟨h1, h2⟩
      omega⟩
    (fun k b _ hI => sobelBody_preserves fsqrt input width height out0 k b hI)
  exact hinv.2 r j hj

/-- Claim C5: the Sobel scan writes output rows exactly in the shifted
range `1..height-2` — processing row `i ≥ 2` emits row `i-1` (one-row
lag), so the first and last rows are never written and retain their
initial value; in `ipl_sobel_edge_detection`, whose output buffer is
pre-zeroed (`calloc`), those unemitted rows read back as 0. -/
theorem compute_sobel_magnitude_row_lag (fsqrt : ℚ → ℚ) (input : Buf)
    (width height : ℕ) (out0 : Buf) (dx0 dy0 : ℕ → ℕ → ℚ) (r j : ℕ)
    (hj : j < width) :
    ((1 ≤ r ∧ r + 2 ≤ height) →
      compute_sobel_magnitude fsqrt input width height out0 dx0 dy0 (r * width + j)
        = sobelValue fsqrt input width height r j) ∧
    ((r = 0 ∨ height < r + 2) →
      compute_sobel_magnitude fsqrt input width height out0 dx0 dy0 (r * width + j)
        = out0 (r * width + j)) ∧
    (∀ (image : Image) (grayInit : Buf) (dxInit dyInit : ℕ → ℕ → ℚ) (r2 j2 : ℕ),
      j2 < image.width → (r2 = 0 ∨ image.height < r2 + 2) →
      (ipl_sobel_edge_detection fsqrt grayInit dxInit dyInit image).1.data
          (r2 * image.width + j2) = 0) := by
  refine ⟨?_, ?_, ?_⟩
  · intro hcnd
    rw [compute_sobel_lookup fsqrt input width height out0 dx0 dy0 r j hj, if_pos hcnd]
  · intro hcnd
    rw [compute_sobel_lookup fsqrt input width height out0 dx0 dy0 r j hj, if_neg]
    rintro ⟨h1, h2⟩
    rcases hcnd with h | h <;> omega
  · intro image grayInit dxInit dyInit r2 j2 hj2 hcnd
    show compute_sobel_magnitude fsqrt
        (convert_to_one_channel image.data grayInit image.width image.height image.channels)
        image.width image.height (fun _ => 0) dxInit dyInit (r2 * image.width + j2) = 0
    rw [compute_sobel_lookup _ _ _ _ _ _ _ r2 j2 hj2, if_neg]
    rintro ⟨h1, h2⟩
    rcases hcnd with h | h <;> omega

/-- Witness for C5 on a 1×3 all-zero image: the middle row is emitted,
row 0 retains the initial value, and the pipeline reads 0 there. -/
theorem compute_sobel_magnitude_row_lag_witness :
    ((0 : ℕ) < 1) ∧
    (((1 ≤ 1 ∧ 1 + 2 ≤ 3) →
      compute_sobel_magnitude (fun q => q) (fun _ => 0) 1 3 (fun _ => 7)
          (fun _ _ => 0) (fun _ _ => 0) (1 * 1 + 0)
        = sobelValue (fun q => q) (fun _ => 0) 1 3 1 0) ∧
    (((1 : ℕ) = 0 ∨ 3 < 1 + 2) →
      compute_sobel_magnitude (fun q => q) (fun _ => 0) 1 3 (fun _ => 7)
          (fun _ _ => 0) (fun _ _ => 0) (1 * 1 + 0)
        = (fun _ => 7 : Buf) (1 * 1 + 0)) ∧
    (∀ (image : Image) (grayInit : Buf) (dxInit dyInit : ℕ → ℕ → ℚ) (r2 j2 : ℕ),
      j2 < image.width → (r2 = 0 ∨ image.height < r2 + 2) →
      (ipl_sobel_edge_detection (fun q => q) grayInit dxInit dyInit image).1.data
          (r2 * image.width + j2) = 0)) :=
  ⟨Nat.one_pos,
    compute_sobel_magnitude_row_lag (fun q => q) (fun _ => 0) 1 3 (fun _ => 7)
      (fun _ _ => 0) (fun _ _ => 0) 1 0 Nat.one_pos⟩

end ImageProcLib
